import Mathlib

/-!
Verification of the filter-expression parser and client-side evaluator of the
tasknotes-cli repository, shallowly embedded from `src/lib/filter-parser.js`
(tokenizer, recursive-descent parser, schema/alias tables) and
`src/lib/api.js` (`queryTasks`, `evaluateGroup`, `evaluateNode`,
`evaluateCondition`).

Modelling conventions:
* JavaScript values flowing through the evaluator are modelled by `TN.JSValue`
  (null/undefined collapsed to `.null`, numbers as `Rat` — JS floats are not
  needed at any claim-relevant precision, NaN is represented as `none` where
  it can arise, i.e. in the results of the `parseFloat`/`Number` models).
* JS exceptions (`TypeError` from calling `.toLowerCase()` on a non-string)
  are modelled with `Except String`.
* The `id` fields the parser attaches to conditions and groups
  (`Date.now()`/`Math.random()`) are omitted: they are non-semantic and
  nondeterministic.
* The tokenizer and parser use explicit fuel to keep them structurally
  recursive (so that concrete runs reduce definitionally); the wrappers
  supply fuel large enough that the fuel-exhaustion branch is unreachable
  for the inputs considered in the theorems below.
-/

namespace TN

/-! ## JS value model -/

inductive JSValue where
  | null
  | bool (b : Bool)
  | num (x : Rat)
  | str (s : String)
  | arr (xs : List JSValue)
  deriving Repr

/-- A task record: an open-ended mapping from property names to values
(`task[property]`); a property that is not present reads as `.null`
(JS `undefined`, which the evaluator only ever inspects for truthiness
or via `Array.isArray`, exactly like `null`). -/
abbrev TaskRec := List (String × JSValue)

def taskGet (t : TaskRec) (p : String) : JSValue :=
  (t.lookup p).getD .null

/-- JS truthiness of the modelled values. -/
def truthy : JSValue → Bool
  | .null => false
  | .bool b => b
  | .num x => x != 0
  | .str s => s != ""
  | .arr _ => true

/-- ASCII-exact model of `String.prototype.toLowerCase` (the repository's
filter values are ASCII; Unicode case mapping is not modelled). -/
def strLower (s : String) : String := String.mk (s.data.map Char.toLower)

/-- ASCII-exact model of `String.prototype.toUpperCase`. -/
def strUpper (s : String) : String := String.mk (s.data.map Char.toUpper)

/-- `sub.isPrefixOf`-somewhere: `hay` contains `sub` as a contiguous
substring (model of JS `String.prototype.includes`). -/
def containsSub (sub : List Char) : List Char → Bool
  | [] => sub.isEmpty
  | c :: t => sub.isPrefixOf (c :: t) || containsSub sub t

def strIncludes (s sub : String) : Bool := containsSub sub.data s.data

/-- The character class of the JS regex `\s` (used by the tokenizer's
whitespace skip and by `parseFloat`/`trim`). -/
def isSpaceChar (c : Char) : Bool :=
  c = ' ' || c = '\t' || c = '\n' || c = '\x0b' || c = '\x0c' || c = '\r' ||
  c.toNat = 0xA0 || c.toNat = 0x1680 ||
  (0x2000 ≤ c.toNat && c.toNat ≤ 0x200A) ||
  c.toNat = 0x2028 || c.toNat = 0x2029 || c.toNat = 0x202F ||
  c.toNat = 0x205F || c.toNat = 0x3000 || c.toNat = 0xFEFF

def digitsToNat (ds : List Char) : Nat :=
  ds.foldl (fun a c => 10 * a + (c.toNat - 48)) 0

/-- Longest float prefix of a character list: optional sign, decimal digits
with optional fractional part. Returns the parsed value (`none` = NaN, i.e.
no digits at all) together with the unconsumed remainder. Exponent notation
and `Infinity` are not modelled (unused by the repository's inputs). -/
def floatPrefix (cs : List Char) : Option Rat × List Char :=
  let sgnRest : Rat × List Char :=
    match cs with
    | c :: r => if c = '-' then (-1, r) else if c = '+' then (1, r) else (1, cs)
    | [] => (1, cs)
  let sgn := sgnRest.1
  let cs1 := sgnRest.2
  let intPart := cs1.takeWhile Char.isDigit
  let cs2 := cs1.dropWhile Char.isDigit
  let fracRest : List Char × List Char :=
    match cs2 with
    | c :: r =>
        if c = '.' then (r.takeWhile Char.isDigit, r.dropWhile Char.isDigit)
        else ([], cs2)
    | [] => ([], cs2)
  let fracPart := fracRest.1
  let rest := fracRest.2
  if intPart.isEmpty && fracPart.isEmpty then (none, cs)
  else
    (some (sgn * ((digitsToNat (intPart ++ fracPart) : Nat) : Rat) /
        ((10 : Rat) ^ fracPart.length)),
      rest)

/-- Model of JS `parseFloat` on a string: skip leading whitespace, parse the
longest float prefix, ignore the rest; `none` = NaN. -/
def parseFloatStr (s : String) : Option Rat :=
  (floatPrefix (s.data.dropWhile isSpaceChar)).1

/-- Model of JS `Number(string)` (`ToNumber` on strings): whitespace-trimmed
empty string is 0; otherwise the whole trimmed string must be a float
literal; `none` = NaN. Hex/binary/octal literals and `Infinity` are not
modelled (unused here). -/
def numberFromString (s : String) : Option Rat :=
  let cs := ((s.data.dropWhile isSpaceChar).reverse.dropWhile isSpaceChar).reverse
  if cs.isEmpty then some 0
  else
    match floatPrefix cs with
    | (some x, []) => some x
    | _ => none

def intToStr (i : Int) : String :=
  if i < 0 then "-" ++ toString i.natAbs else toString i.natAbs

/-- Rendering of a modelled number as a JS string. Only integral values are
exercised by the repository's data; non-integral values get a definite but
unexercised rendering. -/
def ratToStr (x : Rat) : String :=
  if x.den = 1 then intToStr x.num
  else intToStr x.num ++ "/" ++ toString x.den

mutual
/-- Rendering of an array element inside `Array.prototype.toString`
(`join(",")`): null/undefined render as the empty string. -/
def arrElemStr : JSValue → String
  | .null => ""
  | .bool b => if b then "true" else "false"
  | .num x => ratToStr x
  | .str s => s
  | .arr xs => arrJoin xs

def arrJoin : List JSValue → String
  | [] => ""
  | [v] => arrElemStr v
  | v :: vs => arrElemStr v ++ "," ++ arrJoin vs
end

/-- JS `ToPrimitive` as used by the relational operators: arrays are
converted to their joined string; every other modelled value is already
primitive. -/
def toPrim : JSValue → JSValue
  | .arr xs => .str (arrJoin xs)
  | v => v

/-- JS `ToNumber` on primitives (post-`toPrim`); `none` = NaN. -/
def jsToNum : JSValue → Option Rat
  | .null => some 0
  | .bool b => some (if b then 1 else 0)
  | .num x => some x
  | .str s => numberFromString s
  | .arr xs => numberFromString (arrJoin xs)

/-- JS abstract relational comparison `a < b`: string-to-string compares
lexicographically (code-point order; identical to UTF-16 order on the BMP
data used here), anything else numerically with NaN making the comparison
false. Never throws on the modelled values. -/
def jsLT (a b : JSValue) : Bool :=
  match toPrim a, toPrim b with
  | .str s1, .str s2 => decide (s1 < s2)
  | p, q =>
      match jsToNum p, jsToNum q with
      | some x, some y => decide (x < y)
      | _, _ => false

/-- JS `a <= b` (false whenever either side converts to NaN). -/
def jsLE (a b : JSValue) : Bool :=
  match toPrim a, toPrim b with
  | .str s1, .str s2 => decide (s1 ≤ s2)
  | p, q =>
      match jsToNum p, jsToNum q with
      | some x, some y => decide (x ≤ y)
      | _, _ => false

/-- Model of JS `parseFloat(arg)` for arbitrary arguments:
`String(arg)` followed by prefix float parsing. `String` of a finite number
round-trips through `parseFloat`, so numbers map to themselves;
`"null"`, `"true"`, `"false"` have no float prefix (NaN). -/
def parseFloatJS : JSValue → Option Rat
  | .num x => some x
  | .str s => parseFloatStr s
  | .null => none
  | .bool _ => none
  | .arr xs => parseFloatStr (arrJoin xs)

/-! ## Filter-query data model (`filter-parser.js`) -/

inductive CondValue where
  | str (s : String)
  | num (x : Rat)
  | null
  deriving Repr, DecidableEq

def CondValue.toJS : CondValue → JSValue
  | .str s => .str s
  | .num x => .num x
  | .null => .null

structure Condition where
  property : String
  operator : String
  value : CondValue
  deriving Repr, DecidableEq

/-- AST node: `{type:"condition",...}` or `{type:"group",...}`. -/
inductive Ast where
  | condition (c : Condition)
  | group (conjunction : String) (children : List Ast)
  deriving Repr

/-- The root object produced by `astToFilterQuery` (always group-shaped).
`limit` models the optional numeric `limit` field read by
`api.js` `queryTasks` (absent on everything the parser produces; modelled
as a nonnegative integer, the only values exercised). -/
structure FilterQuery where
  conjunction : String
  children : List Ast
  limit : Option Nat
  deriving Repr

/-! ## Tokenizer (`filter-parser.js` `tokenize`) -/

inductive Token where
  | lparen
  | rparen
  | str (s : String)
  | ident (s : String)
  | logical (s : String)
  | colon
  deriving Repr, DecidableEq

/-- The `value` field of a token object. -/
def Token.val : Token → String
  | .lparen => "("
  | .rparen => ")"
  | .str s => s
  | .ident s => s
  | .logical s => s
  | .colon => ":"

/-- The word character class `[a-zA-Z0-9_.-]`. -/
def isWordChar (c : Char) : Bool :=
  ('a' ≤ c && c ≤ 'z') || ('A' ≤ c && c ≤ 'Z') || ('0' ≤ c && c ≤ '9') ||
  c = '_' || c = '.' || c = '-'

def backslashChar : Char := Char.ofNat 92

def squoteChar : Char := Char.ofNat 39

/-- Longest word-character prefix and the remainder. -/
def takeWord : List Char → List Char × List Char
  | [] => ([], [])
  | c :: cs =>
      if isWordChar c then
        let wr := takeWord cs
        (c :: wr.1, wr.2)
      else ([], c :: cs)

/-- Scan a quoted string after the opening quote: consume until the matching
closing quote, a backslash including the next character literally.
`none` models the "Unterminated quoted string" error (including a trailing
backslash, which JS appends literally before running off the end). -/
def takeQuoted (quote : Char) : List Char → Option (List Char × List Char)
  | [] => none
  | c :: cs =>
      if c = quote then some ([], cs)
      else if c = backslashChar then
        match cs with
        | c2 :: cs2 =>
            match takeQuoted quote cs2 with
            | some (v, r) => some (c2 :: v, r)
            | none => none
        | [] => none
      else
        match takeQuoted quote cs with
        | some (v, r) => some (c :: v, r)
        | none => none

/-- The tokenizer loop. Each iteration consumes at least one character, so
fuel `length + 1` never runs out (`tokenize` below). -/
def tokenizeFuel : Nat → List Char → Except String (List Token)
  | 0, _ => .error "Internal: tokenizer fuel exhausted"
  | _ + 1, [] => .ok []
  | f + 1, c :: cs =>
      if isSpaceChar c then tokenizeFuel f cs
      else if c = '(' || c = ')' then
        match tokenizeFuel f cs with
        | .error e => .error e
        | .ok ts => .ok ((if c = '(' then Token.lparen else Token.rparen) :: ts)
      else if c = '"' || c = squoteChar then
        match takeQuoted c cs with
        | none => .error "Unterminated quoted string"
        | some (v, r) =>
            match tokenizeFuel f r with
            | .error e => .error e
            | .ok ts => .ok (Token.str (String.mk v) :: ts)
      else if isWordChar c then
        let wr := takeWord cs
        let word := String.mk (c :: wr.1)
        let up := strUpper word
        match tokenizeFuel f wr.2 with
        | .error e => .error e
        | .ok ts =>
            .ok ((if up = "AND" || up = "OR" then Token.logical (strLower up)
                  else Token.ident word) :: ts)
      else if c = ':' then
        match tokenizeFuel f cs with
        | .error e => .error e
        | .ok ts => .ok (Token.colon :: ts)
      else .error ("Unexpected character: " ++ String.mk [c])

def tokenize (s : String) : Except String (List Token) :=
  tokenizeFuel (s.data.length + 1) s.data

/-! ## Schema and alias tables -/

def propertyAliases (p : String) : String :=
  if p = "tag" then "tags"
  else if p = "context" then "contexts"
  else if p = "project" then "projects"
  else if p = "created" then "file.ctime"
  else if p = "modified" then "file.mtime"
  else if p = "completed" then "completedDate"
  else if p = "estimate" then "timeEstimate"
  else p

def validProperties (p : String) : Option String :=
  if p = "title" then some "text"
  else if p = "status" then some "select"
  else if p = "priority" then some "select"
  else if p = "tags" then some "select"
  else if p = "contexts" then some "select"
  else if p = "projects" then some "select"
  else if p = "due" then some "date"
  else if p = "scheduled" then some "date"
  else if p = "completedDate" then some "date"
  else if p = "file.ctime" then some "date"
  else if p = "file.mtime" then some "date"
  else if p = "archived" then some "boolean"
  else if p = "timeEstimate" then some "numeric"
  else if p = "recurrence" then some "special"
  else if p = "status.isCompleted" then some "boolean"
  else none

def operatorAliases (op : String) : String :=
  if op = "equals" then "is"
  else if op = "not-equals" then "is-not"
  else if op = "before" then "is-before"
  else if op = "after" then "is-after"
  else if op = "on-or-before" then "is-on-or-before"
  else if op = "on-or-after" then "is-on-or-after"
  else if op = "greater-than" then "is-greater-than"
  else if op = "less-than" then "is-less-than"
  else if op = "empty" then "is-empty"
  else if op = "not-empty" then "is-not-empty"
  else if op = "checked" then "is-checked"
  else if op = "not-checked" then "is-not-checked"
  else op

def validOperators : List String :=
  ["is", "is-not", "contains", "does-not-contain",
   "is-before", "is-after", "is-on-or-before", "is-on-or-after",
   "is-empty", "is-not-empty", "is-checked", "is-not-checked",
   "is-greater-than", "is-less-than"]

/-- Operator/value inference for the `property:value` shorthand
(`createCondition`'s `if (!operator)` block). Returns the inferred operator
and the (possibly discarded) value. -/
def inferOp (propertyType resolvedProperty value : String) : String × Option String :=
  if propertyType = "text" then ("contains", some value)
  else if propertyType = "select" then
    if resolvedProperty = "tags" || resolvedProperty = "contexts" ||
        resolvedProperty = "projects" then
      ("contains", some value)
    else ("is", some value)
  else if propertyType = "date" then ("is", some value)
  else if propertyType = "boolean" then
    (if value = "true" then "is-checked" else "is-not-checked", none)
  else if propertyType = "numeric" then ("is", some value)
  else ("is", some value)

/-- `createCondition(property, operator, value)`: alias resolution,
validation, operator inference, and value conversion. `operator = none`
models JS `null`; an empty-string operator is falsy in JS and triggers
inference exactly like `null`. -/
def createCondition (property : String) (operator : Option String)
    (value : String) : Except String Condition :=
  let resolvedProperty := propertyAliases property
  match validProperties resolvedProperty with
  | none => .error ("Unknown property: " ++ property)
  | some propertyType =>
      let opVal : String × Option String :=
        match operator with
        | some op =>
            if op = "" then inferOp propertyType resolvedProperty value
            else (op, some value)
        | none => inferOp propertyType resolvedProperty value
      let op := opVal.1
      let resolvedOperator := operatorAliases op
      if validOperators.contains resolvedOperator then
        if propertyType = "numeric" then
          match opVal.2 with
          | some v =>
              match parseFloatStr v with
              | none => .error ("Invalid numeric value: " ++ v)
              | some x => .ok ⟨resolvedProperty, resolvedOperator, .num x⟩
          | none => .ok ⟨resolvedProperty, resolvedOperator, .null⟩
        else if propertyType = "boolean" then
          .ok ⟨resolvedProperty, resolvedOperator, .null⟩
        else
          match opVal.2 with
          | some v => .ok ⟨resolvedProperty, resolvedOperator, .str v⟩
          | none => .ok ⟨resolvedProperty, resolvedOperator, .null⟩
      else .error ("Unknown operator: " ++ op)

/-! ## Recursive-descent parser (`parseExpression` and friends) -/

/-- `parseCondition`: consumes `property : operatorOrValue [: value]` from
the front of the token list (the length check, the colon checks and the
token `value` projections follow the source line by line). -/
def parseCondition : List Token → Except String (Ast × List Token)
  | t0 :: t1 :: t2 :: rest =>
      if t1 = Token.colon then
        match rest with
        | Token.colon :: rest2 =>
            match rest2 with
            | v :: rest3 =>
                match createCondition t0.val (some t2.val) v.val with
                | .error e => .error e
                | .ok c => .ok (.condition c, rest3)
            | [] => .error "Expected value after operator"
        | _ =>
            match createCondition t0.val none t2.val with
            | .error e => .error e
            | .ok c => .ok (.condition c, rest)
      else .error "Expected colon after property"
  | _ => .error "Incomplete condition"

/-- `if (children.length === 1) return children[0]` followed by the flat
group construction — shared by `parseAndExpression`/`parseOrExpression`. -/
def mkNode (conjunction : String) : List Ast → Ast
  | [a] => a
  | cs => .group conjunction cs

mutual
def parseOrExprF : Nat → List Token → Except String (Ast × List Token)
  | 0, _ => .error "Internal: parser fuel exhausted"
  | f + 1, ts =>
      match parseAndExprF f ts with
      | .error e => .error e
      | .ok (left, ts1) =>
          match parseOrLoopF f [left] ts1 with
          | .error e => .error e
          | .ok (children, ts2) => .ok (mkNode "or" children, ts2)

/-- The `while` loop of `parseOrExpression`, collecting the flat child
list. -/
def parseOrLoopF : Nat → List Ast → List Token → Except String (List Ast × List Token)
  | 0, _, _ => .error "Internal: parser fuel exhausted"
  | f + 1, acc, ts =>
      match ts with
      | Token.logical w :: rest =>
          if w = "or" then
            match parseAndExprF f rest with
            | .error e => .error e
            | .ok (right, ts1) => parseOrLoopF f (acc ++ [right]) ts1
          else .ok (acc, ts)
      | _ => .ok (acc, ts)

def parseAndExprF : Nat → List Token → Except String (Ast × List Token)
  | 0, _ => .error "Internal: parser fuel exhausted"
  | f + 1, ts =>
      match parsePrimaryF f ts with
      | .error e => .error e
      | .ok (left, ts1) =>
          match parseAndLoopF f [left] ts1 with
          | .error e => .error e
          | .ok (children, ts2) => .ok (mkNode "and" children, ts2)

/-- The `while` loop of `parseAndExpression`. -/
def parseAndLoopF : Nat → List Ast → List Token → Except String (List Ast × List Token)
  | 0, _, _ => .error "Internal: parser fuel exhausted"
  | f + 1, acc, ts =>
      match ts with
      | Token.logical w :: rest =>
          if w = "and" then
            match parsePrimaryF f rest with
            | .error e => .error e
            | .ok (right, ts1) => parseAndLoopF f (acc ++ [right]) ts1
          else .ok (acc, ts)
      | _ => .ok (acc, ts)

def parsePrimaryF : Nat → List Token → Except String (Ast × List Token)
  | 0, _ => .error "Internal: parser fuel exhausted"
  | _ + 1, [] => .error "Unexpected end of expression"
  | f + 1, t :: ts =>
      match t with
      | .lparen =>
          match parseOrExprF f ts with
          | .error e => .error e
          | .ok (e, ts1) =>
              match ts1 with
              | .rparen :: ts2 => .ok (e, ts2)
              | _ => .error "Missing closing parenthesis"
      | .ident _ => parseCondition (t :: ts)
      | _ => .error ("Unexpected token: " ++ t.val)
end

/-- `parseExpression(tokens)` — fuel `2·length + 4` is enough for every
token list the theorems below touch (each recursive call either consumes a
token or moves one level down the three-level grammar). Leftover tokens are
ignored, exactly like the source. -/
def parseTokens (ts : List Token) : Except String (Ast × List Token) :=
  parseOrExprF (2 * ts.length + 4) ts

/-- `astToFilterQuery`: wrap a bare condition in a singleton `and`-group,
adopt a group's conjunction and children directly. -/
def astToFilterQuery : Ast → FilterQuery
  | .condition c => ⟨"and", [.condition c], none⟩
  | .group conj children => ⟨conj, children, none⟩

/-- `!expression || !expression.trim()`. -/
def isBlank (s : String) : Bool := s.data.all isSpaceChar

/-- Top-level `parse(expression)`: empty-input rejection before tokenizing,
then tokenize → parseExpression → astToFilterQuery with every error wrapped
as a "Filter parsing error". -/
def parse (expression : String) : Except String FilterQuery :=
  if isBlank expression then .error "Filter expression cannot be empty"
  else
    match tokenize expression with
    | .error e => .error ("Filter parsing error: " ++ e)
    | .ok tokens =>
        match parseTokens tokens with
        | .error e => .error ("Filter parsing error: " ++ e)
        | .ok (ast, _) => .ok (astToFilterQuery ast)

/-! ## Client-side evaluator (`api.js`) -/

/-- `value.toLowerCase()` on a JS value: a `TypeError` (modelled message)
unless the value is a string. -/
def jsToLower : JSValue → Except String String
  | .str s => .ok (strLower s)
  | _ => .error "TypeError: toLowerCase is not a function"

/-- `taskValue.some(v => v.toLowerCase() === value.toLowerCase())`:
elements are visited left to right, the callback body evaluates
`v.toLowerCase()` first and `value.toLowerCase()` second, so the first
non-string datum hit raises; an empty array never runs the callback. -/
def someLowerEq (value : JSValue) : List JSValue → Except String Bool
  | [] => .ok false
  | v :: vs =>
      match jsToLower v with
      | .error e => .error e
      | .ok lv =>
          match jsToLower value with
          | .error e => .error e
          | .ok rv => if lv = rv then .ok true else someLowerEq value vs

/-- `taskValue.some(v => v.toLowerCase().includes(value.toLowerCase()))`. -/
def someLowerIncludes (value : JSValue) : List JSValue → Except String Bool
  | [] => .ok false
  | v :: vs =>
      match jsToLower v with
      | .error e => .error e
      | .ok lv =>
          match jsToLower value with
          | .error e => .error e
          | .ok rv =>
              if strIncludes lv rv then .ok true else someLowerIncludes value vs

/-- `evaluateCondition(task, condition)`: the operator `switch` of
`api.js`, case for case (including the unaliased operator labels the
switch also accepts, and the final permissive `default: return true`).
The scalar string-operator branches mirror the JS `&&`/`||`
short-circuiting: a falsy task value returns before any `toLowerCase`
call, a truthy one evaluates `taskValue.toLowerCase()` then
`value.toLowerCase()`, either of which can throw. -/
def evaluateCondition (task : TaskRec) (c : Condition) : Except String Bool :=
  let taskValue := taskGet task c.property
  let value := c.value.toJS
  if c.operator = "is" then
    match taskValue with
    | .arr xs => someLowerEq value xs
    | tv =>
        if truthy tv then
          match jsToLower tv with
          | .error e => .error e
          | .ok a =>
              match jsToLower value with
              | .error e => .error e
              | .ok b => .ok (a = b)
        else .ok false
  else if c.operator = "is-not" then
    match taskValue with
    | .arr xs =>
        match someLowerEq value xs with
        | .error e => .error e
        | .ok b => .ok !b
    | tv =>
        if truthy tv then
          match jsToLower tv with
          | .error e => .error e
          | .ok a =>
              match jsToLower value with
              | .error e => .error e
              | .ok b => .ok (a ≠ b)
        else .ok true
  else if c.operator = "contains" then
    match taskValue with
    | .arr xs => someLowerIncludes value xs
    | tv =>
        if truthy tv then
          match jsToLower tv with
          | .error e => .error e
          | .ok a =>
              match jsToLower value with
              | .error e => .error e
              | .ok b => .ok (strIncludes a b)
        else .ok false
  else if c.operator = "does-not-contain" then
    match taskValue with
    | .arr xs =>
        match someLowerIncludes value xs with
        | .error e => .error e
        | .ok b => .ok !b
    | tv =>
        if truthy tv then
          match jsToLower tv with
          | .error e => .error e
          | .ok a =>
              match jsToLower value with
              | .error e => .error e
              | .ok b => .ok !(strIncludes a b)
        else .ok true
  else if c.operator = "is-before" || c.operator = "before" then
    .ok (truthy taskValue && jsLT taskValue value)
  else if c.operator = "is-after" || c.operator = "after" then
    .ok (truthy taskValue && jsLT value taskValue)
  else if c.operator = "is-on-or-before" || c.operator = "on-or-before" then
    .ok (truthy taskValue && jsLE taskValue value)
  else if c.operator = "is-on-or-after" || c.operator = "on-or-after" then
    .ok (truthy taskValue && jsLE value taskValue)
  else if c.operator = "is-empty" || c.operator = "empty" then
    .ok (!truthy taskValue ||
      (match taskValue with | .arr xs => xs.isEmpty | _ => false))
  else if c.operator = "is-not-empty" || c.operator = "not-empty" then
    .ok (truthy taskValue &&
      (match taskValue with | .arr xs => !xs.isEmpty | _ => true))
  else if c.operator = "is-greater-than" || c.operator = "greater-than" then
    .ok (truthy taskValue &&
      (match parseFloatJS taskValue, parseFloatJS value with
       | some x, some y => decide (x > y)
       | _, _ => false))
  else if c.operator = "is-less-than" || c.operator = "less-than" then
    .ok (truthy taskValue &&
      (match parseFloatJS taskValue, parseFloatJS value with
       | some x, some y => decide (x < y)
       | _, _ => false))
  else .ok true

mutual
/-- `evaluateNode(task, node)`; its group branch is (definitionally) a call
to `evaluateGroup` below — the body is inlined here only so that Lean
compiles the mutual recursion structurally. -/
def evaluateNode (task : TaskRec) : Ast → Except String Bool
  | .group conj children =>
      if children.isEmpty then .ok true
      else if conj = "or" then evalSome task children
      else evalEvery task children
  | .condition c => evaluateCondition task c

/-- `children.some(child => evaluateNode(task, child))`: left to right,
stopping at the first true child; an exception propagates. -/
def evalSome (task : TaskRec) : List Ast → Except String Bool
  | [] => .ok false
  | a :: as_ =>
      match evaluateNode task a with
      | .error e => .error e
      | .ok true => .ok true
      | .ok false => evalSome task as_

/-- `children.every(child => evaluateNode(task, child))`. -/
def evalEvery (task : TaskRec) : List Ast → Except String Bool
  | [] => .ok true
  | a :: as_ =>
      match evaluateNode task a with
      | .error e => .error e
      | .ok false => .ok false
      | .ok true => evalEvery task as_
end

/-- `evaluateGroup(task, group)` destructured on the group's `conjunction`
and `children` (it is also invoked on the root filter query, which has the
same two fields): empty children are vacuously true, `"or"` is
`Array.prototype.some`, anything else (the default) `Array.prototype.every`. -/
def evaluateGroup (task : TaskRec) (conjunction : String)
    (children : List Ast) : Except String Bool :=
  if children.isEmpty then .ok true
  else if conjunction = "or" then evalSome task children
  else evalEvery task children

/-- `tasks.filter(task => this.evaluateGroup(task, filterQuery))` — the
client-side filtering step of `queryTasks`. An exception thrown while
evaluating some task aborts the whole filter. -/
def filterTasks (q : FilterQuery) : List TaskRec → Except String (List TaskRec)
  | [] => .ok []
  | t :: ts =>
      match evaluateGroup t q.conjunction q.children with
      | .error e => .error e
      | .ok b =>
          match filterTasks q ts with
          | .error e => .error e
          | .ok rest => .ok (if b then t :: rest else rest)

/-- `filterQuery.limit || 200`: an absent limit — and a present but falsy
(zero) one — falls back to 200. -/
def effectiveLimit : Option Nat → Nat
  | none => 200
  | some n => if n = 0 then 200 else n

structure QueryResult where
  tasks : List TaskRec
  total : Nat
  filtered : Nat
  deriving Repr

/-- The pure core of `queryTasks(filterQuery)` acting on the already
fetched task collection: client-side filtering through the tree followed by
the limit truncation. `total` is the pre-filter count, `filtered` the
length of the returned list. (The legacy `conditions`-array input shape and
the `vault` passthrough field are outside every claim and not modelled.) -/
def queryTasks (q : FilterQuery) (allTasks : List TaskRec) :
    Except String QueryResult :=
  match filterTasks q allTasks with
  | .error e => .error e
  | .ok ts =>
      let limit := effectiveLimit q.limit
      let ts := if ts.length > limit then ts.take limit else ts
      .ok ⟨ts, allTasks.length, ts.length⟩

/-! ## Auxiliary definitions used by the claim statements -/

instance {ε α : Type} [DecidableEq ε] [DecidableEq α] :
    DecidableEq (Except ε α) := fun a b =>
  match a, b with
  | .ok x, .ok y =>
      if h : x = y then .isTrue (by rw [h]) else .isFalse (by simp [h])
  | .error e, .error f =>
      if h : e = f then .isTrue (by rw [h]) else .isFalse (by simp [h])
  | .ok _, .error _ => .isFalse (by simp)
  | .error _, .ok _ => .isFalse (by simp)

/-- The operator labels that appear as `case`s in `evaluateCondition`'s
`switch` (both the canonical names and the unaliased spellings the switch
also lists). Any operator outside this list falls through to
`default: return true`. -/
def recognizedOps : List String :=
  ["is", "is-not", "contains", "does-not-contain",
   "is-before", "before", "is-after", "after",
   "is-on-or-before", "on-or-before", "is-on-or-after", "on-or-after",
   "is-empty", "empty", "is-not-empty", "not-empty",
   "is-greater-than", "greater-than", "is-less-than", "less-than"]

/-- The four operators whose evaluation calls `toLowerCase` on the
condition value and the task datum. -/
def stringOps : List String := ["is", "is-not", "contains", "does-not-contain"]

/-- Every condition in the tree that uses a `stringOps` operator carries a
string value (true of all parser output except conditions on the numeric
and boolean properties). -/
inductive GoodConds : Ast → Prop
  | condition (c : Condition)
      (h : c.operator ∈ stringOps → ∃ s, c.value = CondValue.str s) :
      GoodConds (.condition c)
  | group (conj : String) (ch : List Ast) (h : ∀ a ∈ ch, GoodConds a) :
      GoodConds (.group conj ch)

/-- A task value of the shape the data model prescribes: absent/null, a
string, or an array of strings. -/
def goodVal (v : JSValue) : Prop :=
  v = .null ∨ (∃ s, v = .str s) ∨ ∃ xs : List String, v = .arr (xs.map .str)

def goodTask (t : TaskRec) : Prop := ∀ p, goodVal (taskGet t p)

/-- `s₁ ++ sep ++ s₂ ++ sep ++ …` — the expression built from a list of
condition strings joined by a single repeated connective. -/
def joinSep (sep : String) : List String → String
  | [] => ""
  | [s] => s
  | s :: ss => s ++ sep ++ joinSep sep ss

/-- Token lists that `parseCondition` consumes in one step as exactly one
condition: the inferred-operator shape `property : value` and the explicit
shape `property : operator : value`, together with the successful
`createCondition` run. -/
inductive CondToks : List Token → Condition → Prop
  | inferred (p : String) (t : Token) (c : Condition)
      (hc : createCondition p none t.val = .ok c) :
      CondToks [Token.ident p, Token.colon, t] c
  | explicitOp (p : String) (t u : Token) (c : Condition)
      (hc : createCondition p (some t.val) u.val = .ok c) :
      CondToks [Token.ident p, Token.colon, t, Token.colon, u] c

/-- A well-formed condition string: it tokenizes to a token list that
parses as exactly one condition. -/
def CondStr (s : String) (c : Condition) : Prop :=
  ∃ tks, tokenize s = .ok tks ∧ CondToks tks c

/-- The token image of `sep`-joined condition blocks after the first one:
`LOGICAL w, block₁, LOGICAL w, block₂, …`. -/
def glueToks (w : String) : List (List Token × Condition) → List Token
  | [] => []
  | b :: bs => Token.logical w :: b.1 ++ glueToks w bs

/-- The token image of a whole `sep`-joined chain of condition blocks. -/
def chainToks (w : String) : List (List Token × Condition) → List Token
  | [] => []
  | b :: bs => b.1 ++ glueToks w bs

/-- A condition block together with its token list. -/
def BlockOk (b : String × List Token × Condition) : Prop :=
  tokenize b.1 = .ok b.2.1 ∧ CondToks b.2.1 b.2.2

/-- The first token (if any) is not a colon — what `parseCondition` needs
of the continuation to stay on the inferred-operator path. -/
def headNotColon : List Token → Prop
  | [] => True
  | t :: _ => t ≠ Token.colon

/-- The first token is not `LOGICAL w` — what the `parseAndExpression` /
`parseOrExpression` loops need of the continuation in order to stop. -/
def headNotLogical (w : String) : List Token → Prop
  | Token.logical u :: _ => u ≠ w
  | _ => True

/-- Characters are safe to place directly after an independently tokenized
prefix when the first one cannot extend a word. -/
def headSafe : List Char → Prop
  | [] => True
  | c :: _ => isWordChar c = false

/-! ## Helper lemmas -/

/-- `evaluateNode`'s group branch is exactly `evaluateGroup`, as in the
source. -/
theorem evaluateNode_group (task : TaskRec) (conj : String) (ch : List Ast) :
    evaluateNode task (.group conj ch) = evaluateGroup task conj ch := rfl

/-- Any operator outside the switch's case labels takes the `default`
branch. -/
theorem evaluateCondition_default (t : TaskRec) (p : String) (op : String)
    (v : CondValue) (h : op ∉ recognizedOps) :
    evaluateCondition t ⟨p, op, v⟩ = .ok true := by
  simp only [recognizedOps, List.mem_cons, List.not_mem_nil, or_false] at h
  push_neg at h
  obtain ⟨h1, h2, h3, h4, h5, h6, h7, h8, h9, h10,
    h11, h12, h13, h14, h15, h16, h17, h18, h19, h20⟩ := h
  simp [evaluateCondition, h1, h2, h3, h4, h5, h6, h7, h8, h9, h10,
    h11, h12, h13, h14, h15, h16, h17, h18, h19, h20]

/-- Evaluation of `some`-with-equality over an array of strings against a
string value never throws and computes the case-insensitive membership
test. -/
theorem someLowerEq_str (val : String) (xs : List String) :
    someLowerEq (.str val) (xs.map .str) =
      .ok (xs.any fun x => decide (strLower x = strLower val)) := by
  induction xs with
  | nil => rfl
  | cons x xs ih =>
      by_cases h : strLower x = strLower val <;>
        simp [someLowerEq, jsToLower, h, ih]

theorem someLowerIncludes_str (val : String) (xs : List String) :
    someLowerIncludes (.str val) (xs.map .str) =
      .ok (xs.any fun x => strIncludes (strLower x) (strLower val)) := by
  induction xs with
  | nil => rfl
  | cons x xs ih =>
      by_cases h : strIncludes (strLower x) (strLower val) <;>
        simp [someLowerIncludes, jsToLower, h, ih]

/-- `Array.prototype.some` over children that all evaluate cleanly returns
a clean boolean that is true exactly when some child evaluated true. -/
theorem evalSome_spec (task : TaskRec) (l : List Ast)
    (h : ∀ a ∈ l, ∃ b, evaluateNode task a = .ok b) :
    ∃ b, evalSome task l = .ok b ∧
      (b = true ↔ ∃ a ∈ l, evaluateNode task a = .ok true) := by
  induction l with
  | nil => exact ⟨false, rfl, by simp⟩
  | cons a l ih =>
      obtain ⟨b0, hb0⟩ := h a (by simp)
      obtain ⟨b, hb, hiff⟩ := ih (fun x hx => h x (by simp [hx]))
      cases b0 with
      | true =>
          refine ⟨true, by simp [evalSome, hb0], ?_⟩
          simp only [true_iff]
          exact ⟨a, by simp, hb0⟩
      | false =>
          refine ⟨b, by simp [evalSome, hb0, hb], ?_⟩

          rw [hiff]
          constructor
          · rintro ⟨x, hx, hxe⟩; exact ⟨x, by simp [hx], hxe⟩
          · rintro ⟨x, hx, hxe⟩
            rcases (by simpa using hx : x = a ∨ x ∈ l) with rfl | hx2
            · rw [hxe] at hb0; cases hb0
            · exact ⟨x, hx2, hxe⟩

/-- `Array.prototype.every` analogue of `evalSome_spec`. -/
theorem evalEvery_spec (task : TaskRec) (l : List Ast)
    (h : ∀ a ∈ l, ∃ b, evaluateNode task a = .ok b) :
    ∃ b, evalEvery task l = .ok b ∧
      (b = true ↔ ∀ a ∈ l, evaluateNode task a = .ok true) := by
  induction l with
  | nil => exact ⟨true, rfl, by simp⟩
  | cons a l ih =>
      obtain ⟨b0, hb0⟩ := h a (by simp)
      obtain ⟨b, hb, hiff⟩ := ih (fun x hx => h x (by simp [hx]))
      cases b0 with
      | false =>
          refine ⟨false, by simp [evalEvery, hb0], ?_⟩
          simp only [Bool.false_eq_true, false_iff]
          intro hall
          have := hall a (by simp)
          rw [this] at hb0; cases hb0
      | true =>
          refine ⟨b, by simp [evalEvery, hb0, hb], ?_⟩
          rw [hiff]
          constructor
          · intro hall x hx
            rcases (by simpa using hx : x = a ∨ x ∈ l) with rfl | hx2
            · exact hb0
            · exact hall x hx2
          · intro hall x hx; exact hall x (by simp [hx])

/-- The client-side filtering step is an order-preserving, stable,
deduplication-free filter whenever every task evaluates cleanly. -/
theorem filterTasks_ok (q : FilterQuery) (tasks : List TaskRec)
    (h : ∀ t ∈ tasks, ∃ b, evaluateGroup t q.conjunction q.children = .ok b) :
    filterTasks q tasks =
      .ok (tasks.filter fun t =>
        evaluateGroup t q.conjunction q.children = .ok true) := by
  induction tasks with
  | nil => rfl
  | cons t ts ih =>
      obtain ⟨b, hb⟩ := h t (by simp)
      have ih2 := ih (fun x hx => h x (by simp [hx]))
      cases b with
      | true => simp [filterTasks, hb, ih2, List.filter]
      | false =>
          simp only [filterTasks, hb, ih2, List.filter]
          have : (decide (evaluateGroup t q.conjunction q.children =
              Except.ok true)) = false := by
            simp [hb]
          simp [this]

/-! ## Tokenizer lemmas -/

theorem takeWord_append (cs1 cs2 : List Char) :
    takeWord (cs1 ++ cs2) =
      if (takeWord cs1).2 = [] then
        ((takeWord cs1).1 ++ (takeWord cs2).1, (takeWord cs2).2)
      else ((takeWord cs1).1, (takeWord cs1).2 ++ cs2) := by
  induction cs1 with
  | nil => simp [takeWord]
  | cons c cs ih =>
      by_cases hw : isWordChar c
      · by_cases h2 : (takeWord cs).2 = [] <;>
          simp [takeWord, hw, h2, ih]
      · simp [takeWord, hw]

theorem takeWord_len (cs : List Char) : (takeWord cs).2.length ≤ cs.length := by
  induction cs with
  | nil => simp [takeWord]
  | cons c cs ih =>
      by_cases hw : isWordChar c <;> simp [takeWord, hw]
      omega

theorem headSafe_takeWord (cs : List Char) (h : headSafe cs) :
    takeWord cs = ([], cs) := by
  cases cs with
  | nil => rfl
  | cons c cs => simp [takeWord, headSafe] at h ⊢; simp [h]

theorem takeQuoted_quote (q : Char) (cs : List Char) :
    takeQuoted q (q :: cs) = some ([], cs) := by
  conv_lhs => rw [takeQuoted.eq_def]
  simp

theorem takeQuoted_backslash (q : Char) (hq : ¬backslashChar = q)
    (c2 : Char) (cs : List Char) :
    takeQuoted q (backslashChar :: c2 :: cs) =
      match takeQuoted q cs with
      | some (v, r) => some (c2 :: v, r)
      | none => none := by
  conv_lhs => rw [takeQuoted.eq_def]
  simp [hq]

theorem takeQuoted_other (q c : Char) (hq : ¬c = q)
    (hb : ¬c = backslashChar) (cs : List Char) :
    takeQuoted q (c :: cs) =
      match takeQuoted q cs with
      | some (v, r) => some (c :: v, r)
      | none => none := by
  conv_lhs => rw [takeQuoted.eq_def]
  simp [hq, hb]

theorem takeQuoted_append (q : Char) (ext : List Char) :
    ∀ (cs : List Char) (v r : List Char),
      takeQuoted q cs = some (v, r) →
      takeQuoted q (cs ++ ext) = some (v, r ++ ext)
  | [], v, r => by rw [takeQuoted.eq_def]; simp
  | c :: cs, v, r => by
      intro h
      rw [List.cons_append]
      by_cases hq : c = q
      · subst hq
        rw [takeQuoted_quote] at h
        obtain ⟨rfl, rfl⟩ := Prod.mk.injEq .. ▸ Option.some.inj h
        rw [takeQuoted_quote]
      · by_cases hb : c = backslashChar
        · subst hb
          cases cs with
          | nil =>
              rw [show takeQuoted q [backslashChar] = none from by
                rw [takeQuoted.eq_def]; simp [hq]] at h
              exact Option.noConfusion h
          | cons c2 cs2 =>
              rw [takeQuoted_backslash q hq c2 cs2] at h
              rw [List.cons_append, takeQuoted_backslash q hq c2 (cs2 ++ ext)]
              cases hrec : takeQuoted q cs2 with
              | none => rw [hrec] at h; exact Option.noConfusion h
              | some vr =>
                  obtain ⟨v2, r2⟩ := vr
                  rw [hrec] at h
                  obtain ⟨rfl, rfl⟩ := Prod.mk.injEq .. ▸ Option.some.inj h
                  rw [takeQuoted_append q ext cs2 v2 r2 hrec]
        · rw [takeQuoted_other q c hq hb] at h
          rw [takeQuoted_other q c hq hb (cs ++ ext)]
          cases hrec : takeQuoted q cs with
          | none => rw [hrec] at h; exact Option.noConfusion h
          | some vr =>
              obtain ⟨v2, r2⟩ := vr
              rw [hrec] at h
              obtain ⟨rfl, rfl⟩ := Prod.mk.injEq .. ▸ Option.some.inj h
              rw [takeQuoted_append q ext cs v2 r2 hrec]

theorem takeQuoted_len (q : Char) :
    ∀ (cs v r : List Char), takeQuoted q cs = some (v, r) →
      r.length ≤ cs.length
  | [], v, r => by rw [takeQuoted.eq_def]; simp
  | c :: cs, v, r => by
      intro h
      by_cases hq : c = q
      · subst hq
        rw [takeQuoted_quote] at h
        obtain ⟨rfl, rfl⟩ := Prod.mk.injEq .. ▸ Option.some.inj h
        simp
      · by_cases hb : c = backslashChar
        · subst hb
          cases cs with
          | nil =>
              rw [show takeQuoted q [backslashChar] = none from by
                rw [takeQuoted.eq_def]; simp [hq]] at h
              exact Option.noConfusion h
          | cons c2 cs2 =>
              rw [takeQuoted_backslash q hq c2 cs2] at h
              cases hrec : takeQuoted q cs2 with
              | none => rw [hrec] at h; exact Option.noConfusion h
              | some vr =>
                  obtain ⟨v2, r2⟩ := vr
                  rw [hrec] at h
                  obtain ⟨rfl, rfl⟩ := Prod.mk.injEq .. ▸ Option.some.inj h
                  have := takeQuoted_len q cs2 v2 r2 hrec
                  simp only [List.length_cons]
                  omega
        · rw [takeQuoted_other q c hq hb] at h
          cases hrec : takeQuoted q cs with
          | none => rw [hrec] at h; exact Option.noConfusion h
          | some vr =>
              obtain ⟨v2, r2⟩ := vr
              rw [hrec] at h
              obtain ⟨rfl, rfl⟩ := Prod.mk.injEq .. ▸ Option.some.inj h
              have := takeQuoted_len q cs v2 r2 hrec
              simp only [List.length_cons]
              omega

/-- One-step shapes of the tokenizer loop, by branch. -/
theorem tok_space (f : Nat) (c : Char) (cs : List Char)
    (h : isSpaceChar c = true) :
    tokenizeFuel (f + 1) (c :: cs) = tokenizeFuel f cs := by
  conv_lhs => rw [tokenizeFuel.eq_def]
  simp [h]

theorem tok_paren (f : Nat) (c : Char) (cs : List Char)
    (h1 : isSpaceChar c = false) (h2 : (c = '(' || c = ')') = true) :
    tokenizeFuel (f + 1) (c :: cs) =
      match tokenizeFuel f cs with
      | .error e => .error e
      | .ok ts => .ok ((if c = '(' then Token.lparen else Token.rparen) :: ts) := by
  conv_lhs => rw [tokenizeFuel.eq_def]
  simp [h1, h2]

theorem tok_quote (f : Nat) (c : Char) (cs : List Char)
    (h1 : isSpaceChar c = false) (h2 : (c = '(' || c = ')') = false)
    (h3 : (c = '"' || c = squoteChar) = true) :
    tokenizeFuel (f + 1) (c :: cs) =
      match takeQuoted c cs with
      | none => .error "Unterminated quoted string"
      | some (v, r) =>
          match tokenizeFuel f r with
          | .error e => .error e
          | .ok ts => .ok (Token.str (String.mk v) :: ts) := by
  conv_lhs => rw [tokenizeFuel.eq_def]
  simp [h1, h2, h3]

theorem tok_word (f : Nat) (c : Char) (cs : List Char)
    (h1 : isSpaceChar c = false) (h2 : (c = '(' || c = ')') = false)
    (h3 : (c = '"' || c = squoteChar) = false) (h4 : isWordChar c = true) :
    tokenizeFuel (f + 1) (c :: cs) =
      match tokenizeFuel f (takeWord cs).2 with
      | .error e => .error e
      | .ok ts =>
          .ok ((if strUpper (String.mk (c :: (takeWord cs).1)) = "AND" ||
                  strUpper (String.mk (c :: (takeWord cs).1)) = "OR" then
                Token.logical (strLower (strUpper (String.mk (c :: (takeWord cs).1))))
              else Token.ident (String.mk (c :: (takeWord cs).1))) :: ts) := by
  conv_lhs => rw [tokenizeFuel.eq_def]
  simp [h1, h2, h3, h4]

theorem tok_colon (f : Nat) (c : Char) (cs : List Char)
    (h1 : isSpaceChar c = false) (h2 : (c = '(' || c = ')') = false)
    (h3 : (c = '"' || c = squoteChar) = false) (h4 : isWordChar c = false)
    (h5 : c = ':') :
    tokenizeFuel (f + 1) (c :: cs) =
      match tokenizeFuel f cs with
      | .error e => .error e
      | .ok ts => .ok (Token.colon :: ts) := by
  subst h5
  conv_lhs => rw [tokenizeFuel.eq_def]
  simp [h1, h2, h3, h4, show ¬(':' = squoteChar) from by decide]

theorem tok_err (f : Nat) (c : Char) (cs : List Char)
    (h1 : isSpaceChar c = false) (h2 : (c = '(' || c = ')') = false)
    (h3 : (c = '"' || c = squoteChar) = false) (h4 : isWordChar c = false)
    (h5 : ¬c = ':') :
    tokenizeFuel (f + 1) (c :: cs) =
      .error ("Unexpected character: " ++ String.mk [c]) := by
  conv_lhs => rw [tokenizeFuel.eq_def]
  simp [h1, h2, h3, h4, h5]

/-- The tokenizer result does not depend on the fuel once the fuel exceeds
the input length. -/
theorem tokenizeFuel_congr :
    ∀ (n : Nat) (cs : List Char) (f1 f2 : Nat), cs.length ≤ n →
      cs.length < f1 → cs.length < f2 →
      tokenizeFuel f1 cs = tokenizeFuel f2 cs := by
  intro n
  induction n with
  | zero =>
      intro cs f1 f2 h h1 h2
      cases cs with
      | nil =>
          cases f1 with
          | zero => omega
          | succ g1 =>
              cases f2 with
              | zero => omega
              | succ g2 => rfl
      | cons c cs => simp at h
  | succ n ih =>
      intro cs f1 f2 h h1 h2
      cases cs with
      | nil =>
          cases f1 with
          | zero => omega
          | succ g1 =>
              cases f2 with
              | zero => omega
              | succ g2 => rfl
      | cons c cs =>
          cases f1 with
          | zero => omega
          | succ g1 =>
          cases f2 with
          | zero => omega
          | succ g2 =>
          simp only [List.length_cons] at h h1 h2
          cases hsp : isSpaceChar c with
          | true =>
              rw [tok_space g1 c cs hsp, tok_space g2 c cs hsp]
              exact ih cs g1 g2 (by omega) (by omega) (by omega)
          | false =>
          cases hpar : (c = '(' || c = ')') with
          | true =>
              rw [tok_paren g1 c cs hsp hpar, tok_paren g2 c cs hsp hpar,
                ih cs g1 g2 (by omega) (by omega) (by omega)]
          | false =>
          cases hquo : (c = '"' || c = squoteChar) with
          | true =>
              rw [tok_quote g1 c cs hsp hpar hquo,
                tok_quote g2 c cs hsp hpar hquo]
              cases htq : takeQuoted c cs with
              | none => rfl
              | some vr =>
                  obtain ⟨v, r⟩ := vr
                  dsimp only
                  have hlen := takeQuoted_len c cs v r htq
                  rw [ih r g1 g2 (by omega) (by omega) (by omega)]
          | false =>
          cases hw : isWordChar c with
          | true =>
              rw [tok_word g1 c cs hsp hpar hquo hw,
                tok_word g2 c cs hsp hpar hquo hw]
              have hlen := takeWord_len cs
              rw [ih (takeWord cs).2 g1 g2 (by omega) (by omega) (by omega)]
          | false =>
          by_cases hcol : c = ':'
          · rw [tok_colon g1 c cs hsp hpar hquo hw hcol,
              tok_colon g2 c cs hsp hpar hquo hw hcol,
              ih cs g1 g2 (by omega) (by omega) (by omega)]
          · rw [tok_err g1 c cs hsp hpar hquo hw hcol,
              tok_err g2 c cs hsp hpar hquo hw hcol]

/-- Tokenizing an independently tokenizable prefix followed by a suffix
whose first character cannot extend a word yields the concatenation of the
two token streams (with errors from the suffix propagating). -/
theorem tokenizeFuel_append :
    ∀ (n : Nat) (cs1 : List Char), cs1.length ≤ n →
      ∀ (cs2 : List Char) (ts1 : List Token) (f : Nat),
        tokenizeFuel (cs1.length + 1) cs1 = .ok ts1 →
        headSafe cs2 →
        cs1.length + cs2.length < f →
        tokenizeFuel f (cs1 ++ cs2) =
          (tokenizeFuel (cs2.length + 1) cs2).map (fun ts => ts1 ++ ts) := by
  intro n
  induction n with
  | zero =>
      intro cs1 hlen cs2 ts1 f h1 hsafe hf
      cases cs1 with
      | cons c cs => simp at hlen
      | nil =>
          have hts : ts1 = [] := (Except.ok.inj h1).symm
          subst hts
          rw [List.nil_append,
            tokenizeFuel_congr cs2.length cs2 f (cs2.length + 1) le_rfl
              (by simpa using hf) (by omega)]
          cases tokenizeFuel (cs2.length + 1) cs2 <;> simp [Except.map]
  | succ n ih =>
      intro cs1 hlen cs2 ts1 f h1 hsafe hf
      cases cs1 with
      | nil =>
          have hts : ts1 = [] := (Except.ok.inj h1).symm
          subst hts
          rw [List.nil_append,
            tokenizeFuel_congr cs2.length cs2 f (cs2.length + 1) le_rfl
              (by simpa using hf) (by omega)]
          cases tokenizeFuel (cs2.length + 1) cs2 <;> simp [Except.map]
      | cons c cs =>
          simp only [List.length_cons] at hlen h1 hf
          cases f with
          | zero => omega
          | succ g =>
          rw [List.cons_append]
          cases hsp : isSpaceChar c with
          | true =>
              rw [tok_space g c (cs ++ cs2) hsp]
              rw [tok_space (cs.length + 1) c cs hsp] at h1
              exact ih cs (by omega) cs2 ts1 g h1 hsafe (by omega)
          | false =>
          cases hpar : (c = '(' || c = ')') with
          | true =>
              rw [tok_paren g c (cs ++ cs2) hsp hpar]
              rw [tok_paren (cs.length + 1) c cs hsp hpar] at h1
              cases hrec : tokenizeFuel (cs.length + 1) cs with
              | error e => rw [hrec] at h1; exact absurd h1 (by simp)
              | ok ts =>
                  rw [hrec] at h1
                  have hts : ts1 =
                      (if c = '(' then Token.lparen else Token.rparen) :: ts :=
                    (Except.ok.inj h1).symm
                  subst hts
                  rw [ih cs (by omega) cs2 ts g hrec hsafe (by omega)]
                  cases tokenizeFuel (cs2.length + 1) cs2 <;> simp [Except.map]
          | false =>
          cases hquo : (c = '"' || c = squoteChar) with
          | true =>
              rw [tok_quote g c (cs ++ cs2) hsp hpar hquo]
              rw [tok_quote (cs.length + 1) c cs hsp hpar hquo] at h1
              cases htq : takeQuoted c cs with
              | none => rw [htq] at h1; exact absurd h1 (by simp)
              | some vr =>
                  obtain ⟨v, r⟩ := vr
                  rw [htq] at h1
                  rw [takeQuoted_append c cs2 cs v r htq]
                  dsimp only at h1 ⊢
                  have hrlen := takeQuoted_len c cs v r htq
                  rw [tokenizeFuel_congr r.length r (cs.length + 1) (r.length + 1)
                    le_rfl (by omega) (by omega)] at h1
                  cases hrec : tokenizeFuel (r.length + 1) r with
                  | error e => rw [hrec] at h1; exact absurd h1 (by simp)
                  | ok ts =>
                      rw [hrec] at h1
                      have hts : ts1 = Token.str (String.mk v) :: ts :=
                        (Except.ok.inj h1).symm
                      subst hts
                      rw [ih r (by omega) cs2 ts g hrec hsafe (by omega)]
                      cases tokenizeFuel (cs2.length + 1) cs2 <;> simp [Except.map]
          | false =>
          cases hw : isWordChar c with
          | true =>
              rw [tok_word g c (cs ++ cs2) hsp hpar hquo hw]
              rw [tok_word (cs.length + 1) c cs hsp hpar hquo hw] at h1
              have htw := takeWord_append cs cs2
              by_cases hr : (takeWord cs).2 = []
              · rw [if_pos hr] at htw
                rw [headSafe_takeWord cs2 hsafe] at htw
                rw [htw]
                dsimp only
                rw [List.append_nil]
                rw [hr] at h1
                have hnil : tokenizeFuel (cs.length + 1) ([] : List Char) = .ok [] := by
                  cases cs <;> rfl
                rw [hnil] at h1
                dsimp only at h1
                have hts : ts1 =
                    [if strUpper (String.mk (c :: (takeWord cs).1)) = "AND" ||
                        strUpper (String.mk (c :: (takeWord cs).1)) = "OR" then
                      Token.logical (strLower (strUpper (String.mk (c :: (takeWord cs).1))))
                    else Token.ident (String.mk (c :: (takeWord cs).1))] :=
                  (Except.ok.inj h1).symm
                subst hts
                rw [tokenizeFuel_congr cs2.length cs2 g (cs2.length + 1) le_rfl
                  (by omega) (by omega)]
                cases tokenizeFuel (cs2.length + 1) cs2 <;> simp [Except.map]
              · rw [if_neg hr] at htw
                rw [htw]
                dsimp only
                have hwlen := takeWord_len cs
                rw [tokenizeFuel_congr (takeWord cs).2.length (takeWord cs).2
                  (cs.length + 1) ((takeWord cs).2.length + 1) le_rfl (by omega)
                  (by omega)] at h1
                cases hrec : tokenizeFuel ((takeWord cs).2.length + 1) (takeWord cs).2 with
                | error e => rw [hrec] at h1; exact absurd h1 (by simp)
                | ok ts =>
                    rw [hrec] at h1
                    have hts : ts1 =
                        (if strUpper (String.mk (c :: (takeWord cs).1)) = "AND" ||
                            strUpper (String.mk (c :: (takeWord cs).1)) = "OR" then
                          Token.logical (strLower (strUpper (String.mk (c :: (takeWord cs).1))))
                        else Token.ident (String.mk (c :: (takeWord cs).1))) :: ts :=
                      (Except.ok.inj h1).symm
                    subst hts
                    rw [ih (takeWord cs).2 (by omega) cs2 ts g hrec hsafe (by omega)]
                    cases tokenizeFuel (cs2.length + 1) cs2 <;> simp [Except.map]
          | false =>
          by_cases hcol : c = ':'
          · rw [tok_colon g c (cs ++ cs2) hsp hpar hquo hw hcol]
            rw [tok_colon (cs.length + 1) c cs hsp hpar hquo hw hcol] at h1
            cases hrec : tokenizeFuel (cs.length + 1) cs with
            | error e => rw [hrec] at h1; exact absurd h1 (by simp)
            | ok ts =>
                rw [hrec] at h1
                have hts : ts1 = Token.colon :: ts := (Except.ok.inj h1).symm
                subst hts
                rw [ih cs (by omega) cs2 ts g hrec hsafe (by omega)]
                cases tokenizeFuel (cs2.length + 1) cs2 <;> simp [Except.map]
          · rw [tok_err (cs.length + 1) c cs hsp hpar hquo hw hcol] at h1
            exact absurd h1 (by simp)

theorem tokenizeFuel_blank :
    ∀ (cs : List Char) (f : Nat), cs.length < f →
      (∀ c ∈ cs, isSpaceChar c = true) → tokenizeFuel f cs = .ok [] := by
  intro cs
  induction cs with
  | nil =>
      intro f hf _
      cases f with
      | zero => omega
      | succ g => rfl
  | cons c cs ih =>
      intro f hf hsp
      cases f with
      | zero => simp at hf
      | succ g =>
          rw [tok_space g c cs (hsp c (by simp))]
          exact ih g (by simp at hf; omega) (fun x hx => hsp x (by simp [hx]))

theorem tokenize_blank (s : String) (h : isBlank s = true) :
    tokenize s = .ok [] :=
  tokenizeFuel_blank s.data (s.data.length + 1) (by omega)
    (by simpa [isBlank, List.all_eq_true] using h)

theorem isBlank_append (s t : String) :
    isBlank (s ++ t) = (isBlank s && isBlank t) := by
  simp [isBlank, String.data_append, List.all_append]

theorem CondStr_not_blank (s : String) (c : Condition) (h : CondStr s c) :
    isBlank s = false := by
  cases hb : isBlank s with
  | false => rfl
  | true =>
      obtain ⟨tks, htok, hct⟩ := h
      rw [tokenize_blank s hb] at htok
      have : tks = ([] : List Token) := (Except.ok.inj htok).symm
      subst this
      cases hct

/-- Tokenizing `" AND " ++ rest` yields the `and` connective token followed
by `rest`'s tokens. -/
theorem tok_sep_and (cs : List Char) (f : Nat) (hf : cs.length + 5 < f) :
    tokenizeFuel f (' ' :: 'A' :: 'N' :: 'D' :: ' ' :: cs) =
      (tokenizeFuel (cs.length + 1) cs).map
        (fun ts => Token.logical "and" :: ts) := by
  cases f with
  | zero => omega
  | succ g =>
  cases g with
  | zero => omega
  | succ g2 =>
  cases g2 with
  | zero => omega
  | succ g3 =>
  rw [tok_space (g3 + 2) ' ' _ (by decide)]
  rw [tok_word (g3 + 1) 'A' ('N' :: 'D' :: ' ' :: cs) (by decide) (by decide)
    (by decide) (by decide)]
  have htw : takeWord ('N' :: 'D' :: ' ' :: cs) = (['N', 'D'], ' ' :: cs) := by
    simp [takeWord, show isWordChar 'N' = true from by decide,
      show isWordChar 'D' = true from by decide,
      show isWordChar ' ' = false from by decide]
  rw [htw]
  dsimp only
  rw [tok_space g3 ' ' cs (by decide)]
  rw [tokenizeFuel_congr cs.length cs g3 (cs.length + 1) le_rfl (by omega)
    (by omega)]
  cases hx : tokenizeFuel (cs.length + 1) cs with
  | error e => simp [Except.map]
  | ok ts =>
      dsimp only [Except.map]
      rw [show (if strUpper (String.mk ('A' :: ['N', 'D'])) = "AND" ||
          strUpper (String.mk ('A' :: ['N', 'D'])) = "OR" then
            Token.logical (strLower (strUpper (String.mk ('A' :: ['N', 'D']))))
          else Token.ident (String.mk ('A' :: ['N', 'D']))) =
          Token.logical "and" from by decide]

/-- Tokenizing `" OR " ++ rest`. -/
theorem tok_sep_or (cs : List Char) (f : Nat) (hf : cs.length + 4 < f) :
    tokenizeFuel f (' ' :: 'O' :: 'R' :: ' ' :: cs) =
      (tokenizeFuel (cs.length + 1) cs).map
        (fun ts => Token.logical "or" :: ts) := by
  cases f with
  | zero => omega
  | succ g =>
  cases g with
  | zero => omega
  | succ g2 =>
  cases g2 with
  | zero => omega
  | succ g3 =>
  rw [tok_space (g3 + 2) ' ' _ (by decide)]
  rw [tok_word (g3 + 1) 'O' ('R' :: ' ' :: cs) (by decide) (by decide)
    (by decide) (by decide)]
  have htw : takeWord ('R' :: ' ' :: cs) = (['R'], ' ' :: cs) := by
    simp [takeWord, show isWordChar 'R' = true from by decide,
      show isWordChar ' ' = false from by decide]
  rw [htw]
  dsimp only
  rw [tok_space g3 ' ' cs (by decide)]
  rw [tokenizeFuel_congr cs.length cs g3 (cs.length + 1) le_rfl (by omega)
    (by omega)]
  cases hx : tokenizeFuel (cs.length + 1) cs with
  | error e => simp [Except.map]
  | ok ts =>
      dsimp only [Except.map]
      rw [show (if strUpper (String.mk ('O' :: ['R'])) = "AND" ||
          strUpper (String.mk ('O' :: ['R'])) = "OR" then
            Token.logical (strLower (strUpper (String.mk ('O' :: ['R']))))
          else Token.ident (String.mk ('O' :: ['R']))) =
          Token.logical "or" from by decide]

/-- Tokenizing `"(" ++ rest`. -/
theorem tok_lparen_step (cs : List Char) (f : Nat) (hf : cs.length + 1 < f) :
    tokenizeFuel f ('(' :: cs) =
      (tokenizeFuel (cs.length + 1) cs).map (fun ts => Token.lparen :: ts) := by
  cases f with
  | zero => omega
  | succ g =>
  rw [tok_paren g '(' cs (by decide) (by decide)]
  rw [tokenizeFuel_congr cs.length cs g (cs.length + 1) le_rfl (by omega)
    (by omega)]
  cases hx : tokenizeFuel (cs.length + 1) cs <;> simp [Except.map]

/-- Tokenizing `") AND " ++ rest`. -/
theorem tok_rparen_and_step (cs : List Char) (f : Nat) (hf : cs.length + 6 < f) :
    tokenizeFuel f (')' :: ' ' :: 'A' :: 'N' :: 'D' :: ' ' :: cs) =
      (tokenizeFuel (cs.length + 1) cs).map
        (fun ts => Token.rparen :: Token.logical "and" :: ts) := by
  cases f with
  | zero => omega
  | succ g =>
  rw [tok_paren g ')' _ (by decide) (by decide)]
  rw [tok_sep_and cs g (by omega)]
  cases hx : tokenizeFuel (cs.length + 1) cs <;> simp [Except.map]

/-- Tokenization of an `" AND "`-joined chain of condition strings. -/
theorem tokenize_join_and :
    ∀ (blocks : List (String × List Token × Condition)), blocks ≠ [] →
      (∀ b ∈ blocks, BlockOk b) →
      tokenize (joinSep " AND " (blocks.map (·.1))) =
        .ok (chainToks "and" (blocks.map (·.2))) := by
  intro blocks
  induction blocks with
  | nil => intro h; exact absurd rfl h
  | cons b bs ih =>
      intro _ hok
      obtain ⟨htok, _⟩ := hok b (by simp)
      cases bs with
      | nil =>
          simp only [List.map_cons, List.map_nil, joinSep, chainToks, glueToks]
          rw [htok, List.append_nil]
      | cons b2 bs2 =>
          have hjoin : joinSep " AND " ((b :: b2 :: bs2).map (·.1)) =
              b.1 ++ " AND " ++ joinSep " AND " ((b2 :: bs2).map (·.1)) := rfl
          rw [hjoin]
          have hdata : (b.1 ++ " AND " ++ joinSep " AND " ((b2 :: bs2).map (·.1))).data =
              b.1.data ++ (' ' :: 'A' :: 'N' :: 'D' :: ' ' ::
                (joinSep " AND " ((b2 :: bs2).map (·.1))).data) := by
            simp [String.data_append]
          show tokenizeFuel _ _ = _
          rw [hdata]
          have happ := tokenizeFuel_append b.1.data.length b.1.data le_rfl
            (' ' :: 'A' :: 'N' :: 'D' :: ' ' ::
              (joinSep " AND " ((b2 :: bs2).map (·.1))).data)
            b.2.1
            ((b.1.data ++ (' ' :: 'A' :: 'N' :: 'D' :: ' ' ::
              (joinSep " AND " ((b2 :: bs2).map (·.1))).data)).length + 1)
            htok (by exact rfl)
            (by simp only [List.length_append, List.length_cons]; omega)
          rw [happ]
          rw [tok_sep_and ((joinSep " AND " ((b2 :: bs2).map (·.1))).data)
            _ (by simp only [List.length_cons]; omega)]
          have hih := ih (by simp) (fun x hx => hok x (by simp [hx]))
          rw [show tokenizeFuel
              ((joinSep " AND " ((b2 :: bs2).map (·.1))).data.length + 1)
              ((joinSep " AND " ((b2 :: bs2).map (·.1))).data) =
              tokenize (joinSep " AND " ((b2 :: bs2).map (·.1))) from rfl]
          rw [hih]
          simp only [Except.map, List.map_cons, chainToks, glueToks,
            List.cons_append]

/-- Tokenization of an `" OR "`-joined chain of condition strings. -/
theorem tokenize_join_or :
    ∀ (blocks : List (String × List Token × Condition)), blocks ≠ [] →
      (∀ b ∈ blocks, BlockOk b) →
      tokenize (joinSep " OR " (blocks.map (·.1))) =
        .ok (chainToks "or" (blocks.map (·.2))) := by
  intro blocks
  induction blocks with
  | nil => intro h; exact absurd rfl h
  | cons b bs ih =>
      intro _ hok
      obtain ⟨htok, _⟩ := hok b (by simp)
      cases bs with
      | nil =>
          simp only [List.map_cons, List.map_nil, joinSep, chainToks, glueToks]
          rw [htok, List.append_nil]
      | cons b2 bs2 =>
          have hjoin : joinSep " OR " ((b :: b2 :: bs2).map (·.1)) =
              b.1 ++ " OR " ++ joinSep " OR " ((b2 :: bs2).map (·.1)) := rfl
          rw [hjoin]
          have hdata : (b.1 ++ " OR " ++ joinSep " OR " ((b2 :: bs2).map (·.1))).data =
              b.1.data ++ (' ' :: 'O' :: 'R' :: ' ' ::
                (joinSep " OR " ((b2 :: bs2).map (·.1))).data) := by
            simp [String.data_append]
          show tokenizeFuel _ _ = _
          rw [hdata]
          have happ := tokenizeFuel_append b.1.data.length b.1.data le_rfl
            (' ' :: 'O' :: 'R' :: ' ' ::
              (joinSep " OR " ((b2 :: bs2).map (·.1))).data)
            b.2.1
            ((b.1.data ++ (' ' :: 'O' :: 'R' :: ' ' ::
              (joinSep " OR " ((b2 :: bs2).map (·.1))).data)).length + 1)
            htok (by exact rfl)
            (by simp only [List.length_append, List.length_cons]; omega)
          rw [happ]
          rw [tok_sep_or ((joinSep " OR " ((b2 :: bs2).map (·.1))).data)
            _ (by simp only [List.length_cons]; omega)]
          have hih := ih (by simp) (fun x hx => hok x (by simp [hx]))
          rw [show tokenizeFuel
              ((joinSep " OR " ((b2 :: bs2).map (·.1))).data.length + 1)
              ((joinSep " OR " ((b2 :: bs2).map (·.1))).data) =
              tokenize (joinSep " OR " ((b2 :: bs2).map (·.1))) from rfl]
          rw [hih]
          simp only [Except.map, List.map_cons, chainToks, glueToks,
            List.cons_append]

/-! ## Parser lemmas -/

theorem CondToks_len (tks : List Token) (c : Condition) (h : CondToks tks c) :
    3 ≤ tks.length := by
  cases h <;> simp

theorem glueToks_len (w : String) :
    ∀ (bs : List (List Token × Condition)),
      (∀ b ∈ bs, CondToks b.1 b.2) →
      4 * bs.length ≤ (glueToks w bs).length := by
  intro bs
  induction bs with
  | nil => intro _; simp [glueToks]
  | cons b bs ih =>
      intro h
      have h1 := CondToks_len b.1 b.2 (h b (by simp))
      have h2 := ih (fun x hx => h x (by simp [hx]))
      simp only [glueToks, List.length_cons, List.length_append]
      omega

/-- `parseCondition` consumes exactly one condition block, leaving a
continuation that does not begin with a colon untouched. -/
theorem parseCondition_block (tks : List Token) (c : Condition)
    (rest : List Token) (hb : CondToks tks c) (hr : headNotColon rest) :
    parseCondition (tks ++ rest) = .ok (.condition c, rest) := by
  cases hb with
  | inferred p t c hc =>
      show parseCondition (Token.ident p :: Token.colon :: t :: rest) = _
      rw [parseCondition.eq_def]
      dsimp only
      rw [if_pos rfl, show (Token.ident p).val = p from rfl]
      cases rest with
      | nil =>
          dsimp only
          rw [hc]
      | cons r rs =>
          cases r with
          | colon => exact absurd rfl hr
          | _ =>
              dsimp only
              rw [hc]
  | explicitOp p t u c hc =>
      show parseCondition (Token.ident p :: Token.colon :: t ::
        Token.colon :: u :: rest) = _
      rw [parseCondition.eq_def]
      dsimp only
      rw [if_pos rfl, show (Token.ident p).val = p from rfl]
      rw [hc]

/-- `parsePrimaryExpression` on an identifier-headed block. -/
theorem parsePrimaryF_block (f : Nat) (tks : List Token) (c : Condition)
    (rest : List Token) (hb : CondToks tks c) (hr : headNotColon rest)
    (hf : 1 ≤ f) :
    parsePrimaryF f (tks ++ rest) = .ok (.condition c, rest) := by
  have hcond := parseCondition_block tks c rest hb hr
  cases f with
  | zero => omega
  | succ g =>
      cases hb with
      | inferred p t c hc =>
          rw [show (([Token.ident p, Token.colon, t] ++ rest :
            List Token)) = Token.ident p :: (Token.colon :: t :: rest) from rfl]
          rw [parsePrimaryF.eq_def]
          dsimp only
          exact hcond
      | explicitOp p t u c hc =>
          rw [show (([Token.ident p, Token.colon, t, Token.colon, u] ++ rest :
            List Token)) = Token.ident p ::
              (Token.colon :: t :: Token.colon :: u :: rest) from rfl]
          rw [parsePrimaryF.eq_def]
          dsimp only
          exact hcond

theorem andLoop_stop (f : Nat) (acc : List Ast) (ts : List Token)
    (h : headNotLogical "and" ts) :
    parseAndLoopF (f + 1) acc ts = .ok (acc, ts) := by
  rw [parseAndLoopF.eq_def]
  cases ts with
  | nil => rfl
  | cons t rest =>
      cases t with
      | logical w =>
          have hw : ¬w = "and" := h
          dsimp only
          rw [if_neg hw]
      | _ => rfl

theorem andLoop_iter (f : Nat) (acc : List Ast) (rest : List Token) :
    parseAndLoopF (f + 1) acc (Token.logical "and" :: rest) =
      match parsePrimaryF f rest with
      | .error e => .error e
      | .ok (right, ts1) => parseAndLoopF f (acc ++ [right]) ts1 := by
  rw [parseAndLoopF.eq_def]
  dsimp only
  rw [if_pos rfl]

theorem headNotColon_glue (w : String) (bs : List (List Token × Condition))
    (rest : List Token) (hr : headNotColon rest) :
    headNotColon (glueToks w bs ++ rest) := by
  cases bs with
  | nil => simpa [glueToks] using hr
  | cons b bs => simp [glueToks, headNotColon]

theorem parseAndLoopF_chain :
    ∀ (bs : List (List Token × Condition)) (f : Nat) (acc : List Ast)
      (rest : List Token),
      (∀ b ∈ bs, CondToks b.1 b.2) → headNotColon rest →
      headNotLogical "and" rest → 2 * bs.length + 1 ≤ f →
      parseAndLoopF f acc (glueToks "and" bs ++ rest) =
        .ok (acc ++ bs.map (fun b => Ast.condition b.2), rest) := by
  intro bs
  induction bs with
  | nil =>
      intro f acc rest _ hrc hra hf
      cases f with
      | zero => omega
      | succ g =>
          rw [show glueToks "and" [] ++ rest = rest from rfl]
          rw [andLoop_stop g acc rest hra]
          simp
  | cons b bs ih =>
      intro f acc rest hok hrc hra hf
      simp only [List.length_cons] at hf
      cases f with
      | zero => omega
      | succ g =>
          rw [show glueToks "and" (b :: bs) ++ rest =
            Token.logical "and" :: (b.1 ++ (glueToks "and" bs ++ rest)) from by
            simp [glueToks]]
          rw [andLoop_iter g acc (b.1 ++ (glueToks "and" bs ++ rest))]
          rw [parsePrimaryF_block g b.1 b.2 (glueToks "and" bs ++ rest)
            (hok b (by simp)) (headNotColon_glue "and" bs rest hrc) (by omega)]
          dsimp only
          rw [ih g (acc ++ [Ast.condition b.2]) rest
            (fun x hx => hok x (by simp [hx])) hrc hra (by omega)]
          simp

theorem andExpr_step (f : Nat) (ts : List Token) :
    parseAndExprF (f + 1) ts =
      match parsePrimaryF f ts with
      | .error e => .error e
      | .ok (left, ts1) =>
          match parseAndLoopF f [left] ts1 with
          | .error e => .error e
          | .ok (children, ts2) => .ok (mkNode "and" children, ts2) := by
  rw [parseAndExprF.eq_def]

theorem parseAndExprF_chain (f : Nat) (b : List Token × Condition)
    (bs : List (List Token × Condition)) (rest : List Token)
    (hb : CondToks b.1 b.2) (hbs : ∀ x ∈ bs, CondToks x.1 x.2)
    (hrc : headNotColon rest) (hra : headNotLogical "and" rest)
    (hf : 2 * bs.length + 3 ≤ f) :
    parseAndExprF f (b.1 ++ glueToks "and" bs ++ rest) =
      .ok (mkNode "and"
        (Ast.condition b.2 :: bs.map (fun x => Ast.condition x.2)), rest) := by
  cases f with
  | zero => omega
  | succ g =>
      rw [andExpr_step]
      rw [List.append_assoc]
      rw [parsePrimaryF_block g b.1 b.2 (glueToks "and" bs ++ rest) hb
        (headNotColon_glue "and" bs rest hrc) (by omega)]
      dsimp only
      rw [parseAndLoopF_chain bs g [Ast.condition b.2] rest hbs hrc hra
        (by omega)]
      simp

theorem orLoop_stop (f : Nat) (acc : List Ast) (ts : List Token)
    (h : headNotLogical "or" ts) :
    parseOrLoopF (f + 1) acc ts = .ok (acc, ts) := by
  rw [parseOrLoopF.eq_def]
  cases ts with
  | nil => rfl
  | cons t rest =>
      cases t with
      | logical w =>
          have hw : ¬w = "or" := h
          dsimp only
          rw [if_neg hw]
      | _ => rfl

theorem orLoop_iter (f : Nat) (acc : List Ast) (rest : List Token) :
    parseOrLoopF (f + 1) acc (Token.logical "or" :: rest) =
      match parseAndExprF f rest with
      | .error e => .error e
      | .ok (right, ts1) => parseOrLoopF f (acc ++ [right]) ts1 := by
  rw [parseOrLoopF.eq_def]
  dsimp only
  rw [if_pos rfl]

theorem headNotLogical_glue (w u : String) (hne : w ≠ u)
    (bs : List (List Token × Condition)) (rest : List Token)
    (hr : headNotLogical u rest) :
    headNotLogical u (glueToks w bs ++ rest) := by
  cases bs with
  | nil => simpa [glueToks] using hr
  | cons b bs => simpa [glueToks, headNotLogical] using hne

theorem parseOrLoopF_chain :
    ∀ (bs : List (List Token × Condition)) (f : Nat) (acc : List Ast)
      (rest : List Token),
      (∀ b ∈ bs, CondToks b.1 b.2) → headNotColon rest →
      headNotLogical "or" rest → headNotLogical "and" rest →
      4 * bs.length + 1 ≤ f →
      parseOrLoopF f acc (glueToks "or" bs ++ rest) =
        .ok (acc ++ bs.map (fun b => Ast.condition b.2), rest) := by
  intro bs
  induction bs with
  | nil =>
      intro f acc rest _ hrc hro hra hf
      cases f with
      | zero => omega
      | succ g =>
          rw [show glueToks "or" [] ++ rest = rest from rfl]
          rw [orLoop_stop g acc rest hro]
          simp
  | cons b bs ih =>
      intro f acc rest hok hrc hro hra hf
      simp only [List.length_cons] at hf
      cases f with
      | zero => omega
      | succ g =>
          rw [show glueToks "or" (b :: bs) ++ rest =
            Token.logical "or" :: (b.1 ++ (glueToks "or" bs ++ rest)) from by
            simp [glueToks]]
          rw [orLoop_iter g acc (b.1 ++ (glueToks "or" bs ++ rest))]
          have hand := parseAndExprF_chain g b []
            (glueToks "or" bs ++ rest) (hok b (by simp)) (by simp)
            (headNotColon_glue "or" bs rest hrc)
            (headNotLogical_glue "or" "and" (by decide) bs rest hra)
            (by simp only [List.length_nil]; omega)
          rw [show b.1 ++ glueToks "and" [] ++ (glueToks "or" bs ++ rest) =
            b.1 ++ (glueToks "or" bs ++ rest) from by simp [glueToks]] at hand
          rw [hand]
          dsimp only [mkNode, List.map_nil]
          rw [ih g (acc ++ [Ast.condition b.2]) rest
            (fun x hx => hok x (by simp [hx])) hrc hro hra (by omega)]
          simp

theorem orExpr_step (f : Nat) (ts : List Token) :
    parseOrExprF (f + 1) ts =
      match parseAndExprF f ts with
      | .error e => .error e
      | .ok (left, ts1) =>
          match parseOrLoopF f [left] ts1 with
          | .error e => .error e
          | .ok (children, ts2) => .ok (mkNode "or" children, ts2) := by
  rw [parseOrExprF.eq_def]

/-- `parseOrExpression` on an `OR`-joined chain of condition blocks. -/
theorem parseOrExprF_orChain (f : Nat) (b : List Token × Condition)
    (bs : List (List Token × Condition)) (rest : List Token)
    (hb : CondToks b.1 b.2) (hbs : ∀ x ∈ bs, CondToks x.1 x.2)
    (hrc : headNotColon rest) (hro : headNotLogical "or" rest)
    (hra : headNotLogical "and" rest) (hf : 4 * bs.length + 5 ≤ f) :
    parseOrExprF f (b.1 ++ glueToks "or" bs ++ rest) =
      .ok (mkNode "or"
        (Ast.condition b.2 :: bs.map (fun x => Ast.condition x.2)), rest) := by
  cases f with
  | zero => omega
  | succ g =>
      rw [orExpr_step]
      rw [List.append_assoc]
      have hand := parseAndExprF_chain g b [] (glueToks "or" bs ++ rest) hb
        (by simp) (headNotColon_glue "or" bs rest hrc)
        (headNotLogical_glue "or" "and" (by decide) bs rest hra)
        (by simp only [List.length_nil]; omega)
      rw [show b.1 ++ glueToks "and" [] ++ (glueToks "or" bs ++ rest) =
        b.1 ++ (glueToks "or" bs ++ rest) from by simp [glueToks]] at hand
      rw [hand]
      dsimp only [mkNode, List.map_nil]
      rw [parseOrLoopF_chain bs g [Ast.condition b.2] rest hbs hrc hro hra
        (by omega)]
      simp

/-- `parseOrExpression` on an `AND`-joined chain of condition blocks. -/
theorem parseOrExprF_andChain (f : Nat) (b : List Token × Condition)
    (bs : List (List Token × Condition)) (rest : List Token)
    (hb : CondToks b.1 b.2) (hbs : ∀ x ∈ bs, CondToks x.1 x.2)
    (hrc : headNotColon rest) (hro : headNotLogical "or" rest)
    (hra : headNotLogical "and" rest) (hf : 2 * bs.length + 5 ≤ f) :
    parseOrExprF f (b.1 ++ glueToks "and" bs ++ rest) =
      .ok (mkNode "and"
        (Ast.condition b.2 :: bs.map (fun x => Ast.condition x.2)), rest) := by
  cases f with
  | zero => omega
  | succ g =>
      rw [orExpr_step]
      rw [parseAndExprF_chain g b bs rest hb hbs hrc hra (by omega)]
      dsimp only
      cases g with
      | zero => omega
      | succ g2 =>
          rw [orLoop_stop g2 [mkNode "and"
            (Ast.condition b.2 :: bs.map (fun x => Ast.condition x.2))] rest hro]
          dsimp only [mkNode]

theorem astAnd (x : Condition) (cs : List Ast) :
    astToFilterQuery (mkNode "and" (Ast.condition x :: cs)) =
      ⟨"and", Ast.condition x :: cs, none⟩ := by
  cases cs with
  | nil => rfl
  | cons a as2 => rfl

theorem astOrMulti (x y : Ast) (cs : List Ast) :
    astToFilterQuery (mkNode "or" (x :: y :: cs)) =
      ⟨"or", x :: y :: cs, none⟩ := rfl

theorem astOrSingle (x : Condition) :
    astToFilterQuery (mkNode "or" [Ast.condition x]) =
      ⟨"and", [Ast.condition x], none⟩ := rfl

/-- `parseExpression` on the token image of an `AND`-joined chain. -/
theorem parseTokens_and_chain (b : List Token × Condition)
    (bs : List (List Token × Condition)) (hb : CondToks b.1 b.2)
    (hbs : ∀ x ∈ bs, CondToks x.1 x.2) :
    parseTokens (chainToks "and" (b :: bs)) =
      .ok (mkNode "and"
        (Ast.condition b.2 :: bs.map (fun x => Ast.condition x.2)), []) := by
  have h3 := CondToks_len b.1 b.2 hb
  have h4 := glueToks_len "and" bs hbs
  have hp := parseOrExprF_andChain
    (2 * (b.1 ++ glueToks "and" bs).length + 4) b bs [] hb hbs trivial
    trivial trivial
    (by simp only [List.length_append]; omega)
  simp only [List.append_nil] at hp
  simpa only [parseTokens, chainToks] using hp

/-- `parseExpression` on the token image of an `OR`-joined chain. -/
theorem parseTokens_or_chain (b : List Token × Condition)
    (bs : List (List Token × Condition)) (hb : CondToks b.1 b.2)
    (hbs : ∀ x ∈ bs, CondToks x.1 x.2) :
    parseTokens (chainToks "or" (b :: bs)) =
      .ok (mkNode "or"
        (Ast.condition b.2 :: bs.map (fun x => Ast.condition x.2)), []) := by
  have h3 := CondToks_len b.1 b.2 hb
  have h4 := glueToks_len "or" bs hbs
  have hp := parseOrExprF_orChain
    (2 * (b.1 ++ glueToks "or" bs).length + 4) b bs [] hb hbs trivial
    trivial trivial
    (by simp only [List.length_append]; omega)
  simp only [List.append_nil] at hp
  simpa only [parseTokens, chainToks] using hp

theorem blocks_exist :
    ∀ (items : List (String × Condition)),
      (∀ it ∈ items, CondStr it.1 it.2) →
      ∃ blocks : List (String × List Token × Condition),
        blocks.map (fun b => (b.1, b.2.2)) = items ∧ ∀ b ∈ blocks, BlockOk b := by
  intro items
  induction items with
  | nil => intro _; exact ⟨[], rfl, by simp⟩
  | cons it rest ih =>
      intro hok
      obtain ⟨tks, ht, hc⟩ := hok it (by simp)
      obtain ⟨bs, hmap, hbs⟩ := ih (fun x hx => hok x (by simp [hx]))
      refine ⟨(it.1, tks, it.2) :: bs, ?_, ?_⟩
      · simp [hmap]
      · intro x hx
        rcases (by simpa using hx :
            x = (it.1, tks, it.2) ∨ x ∈ bs) with rfl | hx2
        · exact ⟨ht, hc⟩
        · exact hbs x hx2

theorem isBlank_joinSep (sep s : String) (ss : List String)
    (h : isBlank s = false) :
    isBlank (joinSep sep (s :: ss)) = false := by
  cases ss with
  | nil => exact h
  | cons s2 ss2 => simp [joinSep, isBlank_append, h]

/-! ## Claims -/

/-- C8: property aliases are resolved before validation and the default
operator is inferred from the schema value-kind: `tag:work`,
`context:home`, `project:Foo`, `created:2025-01-01` resolve to properties
`tags`, `contexts`, `projects`, `file.ctime`; `tags:project` infers
`contains`, `priority:high` infers `is`, and `archived:true` infers
`is-checked` with a null value. -/
theorem C8_alias_resolution_and_inference :
    parse "tag:work" =
      .ok ⟨"and", [.condition ⟨"tags", "contains", .str "work"⟩], none⟩ ∧
    parse "context:home" =
      .ok ⟨"and", [.condition ⟨"contexts", "contains", .str "home"⟩], none⟩ ∧
    parse "project:Foo" =
      .ok ⟨"and", [.condition ⟨"projects", "contains", .str "Foo"⟩], none⟩ ∧
    parse "created:2025-01-01" =
      .ok ⟨"and", [.condition ⟨"file.ctime", "is", .str "2025-01-01"⟩], none⟩ ∧
    parse "tags:project" =
      .ok ⟨"and", [.condition ⟨"tags", "contains", .str "project"⟩], none⟩ ∧
    parse "priority:high" =
      .ok ⟨"and", [.condition ⟨"priority", "is", .str "high"⟩], none⟩ ∧
    parse "archived:true" =
      .ok ⟨"and", [.condition ⟨"archived", "is-checked", .null⟩], none⟩ :=
  ⟨rfl, rfl, rfl, rfl, rfl, rfl, rfl⟩

/-- C9: `parse` rejects empty or whitespace-only input (before tokenizing,
with the dedicated message), and any tokenizer or grammar error surfaces as
a single parsing error wrapping the underlying cause. -/
theorem C9_parse_error_handling (s : String) :
    (isBlank s = true → parse s = .error "Filter expression cannot be empty") ∧
    (isBlank s = false → ∀ e : String,
      (tokenize s = .error e ∨
        ∃ ts, tokenize s = .ok ts ∧ parseTokens ts = .error e) →
      parse s = .error ("Filter parsing error: " ++ e)) := by
  constructor
  · intro h
    simp [parse, h]
  · intro h e he
    rcases he with he | ⟨ts, hts, hp⟩
    · simp [parse, h, he]
    · simp [parse, h, hts, hp]

/-- Witness for C9 at concrete inputs: a whitespace-only expression and a
tokenizer failure. -/
theorem C9_witness :
    parse "  " = .error "Filter expression cannot be empty" ∧
    parse "@" = .error "Filter parsing error: Unexpected character: @" :=
  ⟨(C9_parse_error_handling "  ").1 (by decide),
    (C9_parse_error_handling "@").2 (by decide) "Unexpected character: @"
      (Or.inl rfl)⟩

/-- C6: a condition whose operator is none of the switch's case labels
evaluates to the permissive default `true` for every task. -/
theorem C6_unknown_operator_permissive_default (op : String)
    (h : op ∉ recognizedOps) (t : TaskRec) (p : String) (v : CondValue) :
    evaluateCondition t ⟨p, op, v⟩ = .ok true :=
  evaluateCondition_default t p op v h

/-- Witness for C6: a made-up operator is accepted permissively. -/
theorem C6_witness :
    evaluateCondition [("status", JSValue.str "done")]
      ⟨"status", "frobnicate", .str "x"⟩ = .ok true :=
  C6_unknown_operator_permissive_default "frobnicate" (by decide)
    [("status", JSValue.str "done")] "status" (.str "x")

/-- C7: `is-checked`/`is-not-checked` are valid parser operators (inferred
for `archived:true` / `archived:false`), yet the evaluator's switch has no
case for them, so such conditions hit the permissive default and
boolean-property filters never exclude any task. -/
theorem C7_boolean_operators_never_filter :
    (validOperators.contains "is-checked" = true ∧
      validOperators.contains "is-not-checked" = true) ∧
    (parse "archived:true" =
        .ok ⟨"and", [.condition ⟨"archived", "is-checked", .null⟩], none⟩ ∧
      parse "archived:false" =
        .ok ⟨"and", [.condition ⟨"archived", "is-not-checked", .null⟩], none⟩) ∧
    (∀ (t : TaskRec) (p : String) (v : CondValue),
      evaluateCondition t ⟨p, "is-checked", v⟩ = .ok true ∧
      evaluateCondition t ⟨p, "is-not-checked", v⟩ = .ok true) ∧
    (∀ (tasks : List TaskRec) (p : String),
      filterTasks ⟨"and", [.condition ⟨p, "is-checked", .null⟩], none⟩ tasks =
        .ok tasks ∧
      filterTasks ⟨"and", [.condition ⟨p, "is-not-checked", .null⟩], none⟩ tasks =
        .ok tasks) := by
  have hev : ∀ (t : TaskRec) (p : String) (v : CondValue),
      evaluateCondition t ⟨p, "is-checked", v⟩ = .ok true ∧
      evaluateCondition t ⟨p, "is-not-checked", v⟩ = .ok true := fun t p v =>
    ⟨evaluateCondition_default t p "is-checked" v (by decide),
      evaluateCondition_default t p "is-not-checked" v (by decide)⟩
  refine ⟨⟨rfl, rfl⟩, ⟨rfl, rfl⟩, hev, ?_⟩
  intro tasks p
  constructor <;>
  · induction tasks with
    | nil => rfl
    | cons t ts ih =>
        simp only [filterTasks, evaluateGroup, evalEvery, evaluateNode,
          (hev t p CondValue.null).1, (hev t p CondValue.null).2, ih]
        simp

/-- Tokenization of `(A OR B) AND C` for tokenizable condition strings. -/
theorem tokenize_paren_or_and (sA sB sC : String) (tA tB tC : List Token)
    (hAtok : tokenize sA = .ok tA) (hBtok : tokenize sB = .ok tB)
    (hCtok : tokenize sC = .ok tC) :
    tokenize ("(" ++ sA ++ " OR " ++ sB ++ ") AND " ++ sC) =
      .ok (Token.lparen :: (tA ++ Token.logical "or" ::
        (tB ++ Token.rparen :: Token.logical "and" :: tC))) := by
  have hdata : ("(" ++ sA ++ " OR " ++ sB ++ ") AND " ++ sC).data =
      '(' :: (sA.data ++ ' ' :: 'O' :: 'R' :: ' ' ::
        (sB.data ++ ')' :: ' ' :: 'A' :: 'N' :: 'D' :: ' ' :: sC.data)) := by
    simp [String.data_append]
  show tokenizeFuel _ _ = _
  rw [hdata]
  rw [tok_lparen_step _ _
    (by simp only [List.length_cons, List.length_append]; omega)]
  have happ1 := tokenizeFuel_append sA.data.length sA.data le_rfl
    (' ' :: 'O' :: 'R' :: ' ' ::
      (sB.data ++ ')' :: ' ' :: 'A' :: 'N' :: 'D' :: ' ' :: sC.data))
    tA
    ((sA.data ++ ' ' :: 'O' :: 'R' :: ' ' ::
      (sB.data ++ ')' :: ' ' :: 'A' :: 'N' :: 'D' :: ' ' :: sC.data)).length + 1)
    hAtok (by exact rfl)
    (by simp only [List.length_append, List.length_cons]; omega)
  rw [happ1]
  rw [tok_sep_or (sB.data ++ ')' :: ' ' :: 'A' :: 'N' :: 'D' :: ' ' :: sC.data)
    _ (by simp only [List.length_cons]; omega)]
  have happ2 := tokenizeFuel_append sB.data.length sB.data le_rfl
    (')' :: ' ' :: 'A' :: 'N' :: 'D' :: ' ' :: sC.data)
    tB
    ((sB.data ++ ')' :: ' ' :: 'A' :: 'N' :: 'D' :: ' ' :: sC.data).length + 1)
    hBtok (by exact rfl)
    (by simp only [List.length_append, List.length_cons]; omega)
  rw [happ2]
  rw [tok_rparen_and_step sC.data _ (by simp only [List.length_cons]; omega)]
  rw [show tokenizeFuel (sC.data.length + 1) sC.data = tokenize sC from rfl,
    hCtok]
  simp only [Except.map]

/-- Parsing the token image of `(A OR B) AND C`: the parenthesized
sub-expression stays its own nested or-group inside a two-child root
and-group. -/
theorem parseOrExprF_parenGroup (f : Nat) (tA tB tC : List Token)
    (cA cB cC : Condition)
    (hA : CondToks tA cA) (hB : CondToks tB cB) (hC : CondToks tC cC)
    (hf : 13 ≤ f) :
    parseOrExprF f (Token.lparen :: (tA ++ Token.logical "or" ::
        (tB ++ Token.rparen :: Token.logical "and" :: tC))) =
      .ok (Ast.group "and"
        [Ast.group "or" [Ast.condition cA, Ast.condition cB],
         Ast.condition cC], []) := by
  cases f with
  | zero => omega
  | succ g =>
  cases g with
  | zero => omega
  | succ g2 =>
  cases g2 with
  | zero => omega
  | succ g3 =>
  cases g3 with
  | zero => omega
  | succ g4 =>
  have hPrim : parsePrimaryF (g4 + 1 + 1)
      (Token.lparen :: (tA ++ Token.logical "or" ::
        (tB ++ Token.rparen :: Token.logical "and" :: tC))) =
      .ok (Ast.group "or" [Ast.condition cA, Ast.condition cB],
        Token.logical "and" :: tC) := by
    rw [parsePrimaryF.eq_def]
    dsimp only
    have hinner := parseOrExprF_orChain (g4 + 1) (tA, cA) [(tB, cB)]
      (Token.rparen :: Token.logical "and" :: tC) hA
      (by
        intro x hx
        simp only [List.mem_singleton] at hx
        rw [hx]
        exact hB)
      (fun h => Token.noConfusion h) trivial trivial
      (by simp only [List.length_cons, List.length_nil]; omega)
    simp only [glueToks, List.append_nil, List.append_assoc,
      List.cons_append, List.map_cons, List.map_nil] at hinner
    rw [hinner]
    dsimp only
    rfl
  have hCond : parsePrimaryF (g4 + 1) tC = .ok (.condition cC, []) := by
    have h := parsePrimaryF_block (g4 + 1) tC cC [] hC trivial (by omega)
    simpa using h
  have hLoop : parseAndLoopF (g4 + 1 + 1)
      [Ast.group "or" [Ast.condition cA, Ast.condition cB]]
      (Token.logical "and" :: tC) =
      .ok ([Ast.group "or" [Ast.condition cA, Ast.condition cB],
        Ast.condition cC], []) := by
    rw [andLoop_iter, hCond]
    dsimp only
    rw [andLoop_stop g4 _ [] trivial]
    rfl
  have hAnd : parseAndExprF (g4 + 1 + 1 + 1)
      (Token.lparen :: (tA ++ Token.logical "or" ::
        (tB ++ Token.rparen :: Token.logical "and" :: tC))) =
      .ok (Ast.group "and"
        [Ast.group "or" [Ast.condition cA, Ast.condition cB],
         Ast.condition cC], []) := by
    rw [andExpr_step, hPrim]
    dsimp only
    rw [hLoop]
    rfl
  rw [orExpr_step, hAnd]
  dsimp only
  rw [orLoop_stop (g4 + 1 + 1) _ [] trivial]
  rfl

/-- C1: parsing `N ≥ 1` conditions joined by one repeated connective (all
`AND` or all `OR`, no parentheses) yields a single flat root group whose
conjunction is that connective (`"and"` for a single condition), whose
children are exactly the `N` condition nodes in input order, and none of
whose children is itself a group. -/
theorem C1_flat_same_connective_chain (items : List (String × Condition))
    (hne : items ≠ [])
    (hok : ∀ it ∈ items, CondStr it.1 it.2) :
    parse (joinSep " AND " (items.map (·.1))) =
      .ok ⟨"and", items.map (fun it => Ast.condition it.2), none⟩ ∧
    (2 ≤ items.length →
      parse (joinSep " OR " (items.map (·.1))) =
        .ok ⟨"or", items.map (fun it => Ast.condition it.2), none⟩) ∧
    (items.length = 1 →
      parse (joinSep " OR " (items.map (·.1))) =
        .ok ⟨"and", items.map (fun it => Ast.condition it.2), none⟩) := by
  obtain ⟨blocks, hmap, hbok⟩ := blocks_exist items hok
  cases blocks with
  | nil =>
      rw [← hmap] at hne
      simp at hne
  | cons b bs =>
      have hb : CondToks b.2.1 b.2.2 := (hbok b (by simp)).2
      have hbs : ∀ x ∈ bs.map (fun y => y.2), CondToks x.1 x.2 := by
        intro x hx
        simp only [List.mem_map] at hx
        obtain ⟨y, hy, rfl⟩ := hx
        exact (hbok y (by simp [hy])).2
      have hstr : items.map (·.1) = (b :: bs).map (·.1) := by
        rw [← hmap, List.map_map]
        rfl
      have hconds : items.map (fun it => Ast.condition it.2) =
          Ast.condition b.2.2 ::
            (bs.map (fun y => y.2)).map (fun x => Ast.condition x.2) := by
        rw [← hmap, List.map_map, List.map_map]
        simp [Function.comp]
      have hcstr : CondStr b.1 b.2.2 := ⟨b.2.1, (hbok b (by simp)).1, hb⟩
      have hblank1 : isBlank b.1 = false := CondStr_not_blank b.1 b.2.2 hcstr
      have hlen_items : items.length = bs.length + 1 := by
        rw [← hmap]
        simp
      refine ⟨?_, ?_, ?_⟩
      · rw [hstr]
        have htok := tokenize_join_and (b :: bs) (by simp) hbok
        have hblank2 : isBlank (joinSep " AND " ((b :: bs).map (·.1))) =
            false := by
          simp only [List.map_cons]
          exact isBlank_joinSep " AND " b.1 (bs.map (·.1)) hblank1
        simp only [parse, hblank2, Bool.false_eq_true, if_false]
        rw [htok]
        dsimp only
        simp only [List.map_cons]
        rw [parseTokens_and_chain b.2 (bs.map (fun y => y.2)) hb hbs]
        dsimp only
        rw [astAnd, hconds]
      · intro hlen
        have hbs_ne : bs ≠ [] := by
          intro hnil
          rw [hnil] at hlen_items
          simp only [List.length_nil] at hlen_items
          omega
        cases bs with
        | nil => exact absurd rfl hbs_ne
        | cons b2 bs2 =>
            rw [hstr]
            have htok := tokenize_join_or (b :: b2 :: bs2) (by simp) hbok
            have hblank2 : isBlank (joinSep " OR " ((b :: b2 :: bs2).map (·.1))) =
                false := by
              simp only [List.map_cons]
              exact isBlank_joinSep " OR " b.1 ((b2 :: bs2).map (·.1)) hblank1
            simp only [parse, hblank2, Bool.false_eq_true, if_false]
            rw [htok]
            dsimp only
            simp only [List.map_cons]
            rw [parseTokens_or_chain b.2 (b2.2 :: bs2.map (fun y => y.2)) hb
              (by simpa using hbs)]
            dsimp only
            simp only [List.map_cons]
            rw [astOrMulti, hconds]
            simp
      · intro hlen
        cases bs with
        | cons b2 bs2 =>
            rw [hlen_items] at hlen
            simp at hlen
        | nil =>
            rw [hstr]
            have htok := tokenize_join_or [b] (by simp) hbok
            have hblank2 : isBlank (joinSep " OR " ([b].map (·.1))) =
                false := by
              simp only [List.map_cons, List.map_nil]
              exact isBlank_joinSep " OR " b.1 [] hblank1
            simp only [parse, hblank2, Bool.false_eq_true, if_false]
            rw [htok]
            dsimp only
            simp only [List.map_cons, List.map_nil]
            rw [parseTokens_or_chain b.2 [] hb (by simp)]
            dsimp only
            simp only [List.map_nil]
            rw [astOrSingle, hconds]
            simp

/-- Witness for C1 at three concrete conditions. -/
theorem C1_witness :
    parse (joinSep " AND " (([("status:todo", ⟨"status", "is", .str "todo"⟩),
        ("priority:high", ⟨"priority", "is", .str "high"⟩),
        ("tag:work", ⟨"tags", "contains", .str "work"⟩)] :
          List (String × Condition)).map (·.1))) =
      .ok ⟨"and",
        [.condition ⟨"status", "is", .str "todo"⟩,
         .condition ⟨"priority", "is", .str "high"⟩,
         .condition ⟨"tags", "contains", .str "work"⟩], none⟩ ∧
    parse (joinSep " OR " (([("status:todo", ⟨"status", "is", .str "todo"⟩),
        ("priority:high", ⟨"priority", "is", .str "high"⟩),
        ("tag:work", ⟨"tags", "contains", .str "work"⟩)] :
          List (String × Condition)).map (·.1))) =
      .ok ⟨"or",
        [.condition ⟨"status", "is", .str "todo"⟩,
         .condition ⟨"priority", "is", .str "high"⟩,
         .condition ⟨"tags", "contains", .str "work"⟩] , none⟩ := by
  have hok : ∀ it ∈ ([("status:todo", (⟨"status", "is", .str "todo"⟩ : Condition)),
      ("priority:high", ⟨"priority", "is", .str "high"⟩),
      ("tag:work", ⟨"tags", "contains", .str "work"⟩)] :
        List (String × Condition)), CondStr it.1 it.2 := by
    intro it hit
    rcases (by simpa using hit :
        it = ("status:todo", (⟨"status", "is", .str "todo"⟩ : Condition)) ∨
        it = ("priority:high", (⟨"priority", "is", .str "high"⟩ : Condition)) ∨
        it = ("tag:work", (⟨"tags", "contains", .str "work"⟩ : Condition)))
      with rfl | rfl | rfl
    · exact ⟨[Token.ident "status", Token.colon, Token.ident "todo"], rfl,
        CondToks.inferred "status" (Token.ident "todo") _ rfl⟩
    · exact ⟨[Token.ident "priority", Token.colon, Token.ident "high"], rfl,
        CondToks.inferred "priority" (Token.ident "high") _ rfl⟩
    · exact ⟨[Token.ident "tag", Token.colon, Token.ident "work"], rfl,
        CondToks.inferred "tag" (Token.ident "work") _ rfl⟩
  have h := C1_flat_same_connective_chain _ (by simp) hok
  exact ⟨h.1, h.2.1 (by simp)⟩

/-- C2: for any three well-formed condition strings `A`, `B`, `C`, parsing
`(A OR B) AND C` yields a root and-group with exactly two children: first a
nested or-group holding exactly the condition nodes of `A` and `B`, second
the condition node of `C` — the parenthesized sub-expression stays its own
group and is not merged into the enclosing child list. -/
theorem C2_paren_group_stays_nested (sA sB sC : String) (cA cB cC : Condition)
    (hA : CondStr sA cA) (hB : CondStr sB cB) (hC : CondStr sC cC) :
    parse ("(" ++ sA ++ " OR " ++ sB ++ ") AND " ++ sC) =
      .ok ⟨"and",
        [Ast.group "or" [Ast.condition cA, Ast.condition cB],
         Ast.condition cC], none⟩ := by
  obtain ⟨tA, hAtok, hAct⟩ := hA
  obtain ⟨tB, hBtok, hBct⟩ := hB
  obtain ⟨tC, hCtok, hCct⟩ := hC
  have hdata : ("(" ++ sA ++ " OR " ++ sB ++ ") AND " ++ sC).data =
      '(' :: (sA.data ++ ' ' :: 'O' :: 'R' :: ' ' ::
        (sB.data ++ ')' :: ' ' :: 'A' :: 'N' :: 'D' :: ' ' :: sC.data)) := by
    simp [String.data_append]
  have hblank : isBlank ("(" ++ sA ++ " OR " ++ sB ++ ") AND " ++ sC) =
      false := by
    show (("(" ++ sA ++ " OR " ++ sB ++ ") AND " ++ sC).data.all isSpaceChar) =
      false
    rw [hdata]
    simp only [List.all_cons]
    rw [show isSpaceChar '(' = false from by decide]
    rfl
  have htok := tokenize_paren_or_and sA sB sC tA tB tC hAtok hBtok hCtok
  simp only [parse, hblank, Bool.false_eq_true, if_false]
  rw [htok]
  dsimp only
  have h3A := CondToks_len tA cA hAct
  have h3B := CondToks_len tB cB hBct
  have h3C := CondToks_len tC cC hCct
  rw [show parseTokens (Token.lparen :: (tA ++ Token.logical "or" ::
      (tB ++ Token.rparen :: Token.logical "and" :: tC))) =
      parseOrExprF (2 * (Token.lparen :: (tA ++ Token.logical "or" ::
        (tB ++ Token.rparen :: Token.logical "and" :: tC))).length + 4)
      (Token.lparen :: (tA ++ Token.logical "or" ::
        (tB ++ Token.rparen :: Token.logical "and" :: tC))) from rfl]
  rw [parseOrExprF_parenGroup _ tA tB tC cA cB cC hAct hBct hCct
    (by simp only [List.length_cons, List.length_append]; omega)]
  rfl

/-- Witness for C2 at three concrete condition strings. -/
theorem C2_witness :
    parse ("(" ++ "status:todo" ++ " OR " ++ "status:done" ++ ") AND " ++
        "priority:high") =
      .ok ⟨"and",
        [Ast.group "or"
          [Ast.condition ⟨"status", "is", .str "todo"⟩,
           Ast.condition ⟨"status", "is", .str "done"⟩],
         Ast.condition ⟨"priority", "is", .str "high"⟩], none⟩ :=
  C2_paren_group_stays_nested "status:todo" "status:done" "priority:high"
    ⟨"status", "is", .str "todo"⟩ ⟨"status", "is", .str "done"⟩
    ⟨"priority", "is", .str "high"⟩
    ⟨[Token.ident "status", Token.colon, Token.ident "todo"], rfl,
      CondToks.inferred "status" (Token.ident "todo") _ rfl⟩
    ⟨[Token.ident "status", Token.colon, Token.ident "done"], rfl,
      CondToks.inferred "status" (Token.ident "done") _ rfl⟩
    ⟨[Token.ident "priority", Token.colon, Token.ident "high"], rfl,
      CondToks.inferred "priority" (Token.ident "high") _ rfl⟩

/-- C3: group evaluation semantics — empty children are vacuously true,
`"or"` means "some child true", every other conjunction value (including
`"and"` and unrecognized strings) means "all children true", recursion
included; and applying a tree to a task sequence is an order-preserving,
stable filter without deduplication, which returns every task unchanged for
an empty-children group. -/
theorem C3_group_evaluation_and_filter (task : TaskRec) (conj : String)
    (children : List Ast) (q : FilterQuery) (tasks : List TaskRec) :
    evaluateGroup task conj [] = .ok true ∧
    ((∀ a ∈ children, ∃ b, evaluateNode task a = .ok b) →
      (∃ b, evaluateGroup task conj children = .ok b) ∧
      (children ≠ [] →
        (evaluateGroup task "or" children = .ok true ↔
          ∃ a ∈ children, evaluateNode task a = .ok true)) ∧
      (conj ≠ "or" →
        (evaluateGroup task conj children = .ok true ↔
          ∀ a ∈ children, evaluateNode task a = .ok true))) ∧
    ((∀ t ∈ tasks, ∃ b, evaluateGroup t q.conjunction q.children = .ok b) →
      filterTasks q tasks =
        .ok (tasks.filter fun t =>
          evaluateGroup t q.conjunction q.children = .ok true)) ∧
    (q.children = [] → filterTasks q tasks = .ok tasks) := by
  refine ⟨rfl, ?_, filterTasks_ok q tasks, ?_⟩
  · intro h
    obtain ⟨bs, hbs, hbsiff⟩ := evalSome_spec task children h
    obtain ⟨be, hbe, hbeiff⟩ := evalEvery_spec task children h
    refine ⟨?_, ?_, ?_⟩
    · cases children with
      | nil => exact ⟨true, rfl⟩
      | cons x xs =>
          by_cases hc : conj = "or"
          · exact ⟨bs, by simp [evaluateGroup, hc, hbs]⟩
          · exact ⟨be, by simp [evaluateGroup, hc, hbe]⟩
    · intro hne
      have hg : evaluateGroup task "or" children = evalSome task children := by
        cases children with
        | nil => exact absurd rfl hne
        | cons x xs => simp [evaluateGroup]
      rw [hg, hbs]
      simpa using hbsiff
    · intro hc
      cases children with
      | nil => simp [evaluateGroup]
      | cons x xs =>
          have hg : evaluateGroup task conj (x :: xs) =
              evalEvery task (x :: xs) := by
            simp [evaluateGroup, hc]
          rw [hg, hbe]
          simpa using hbeiff
  · intro hch
    induction tasks with
    | nil => rfl
    | cons t ts ih =>
        have hg : evaluateGroup t q.conjunction q.children = .ok true := by
          rw [hch]; rfl
        simp [filterTasks, hg, ih]

/-- Witness for C3 at a concrete or-group and task collection. -/
theorem C3_witness :
    evaluateGroup [("status", JSValue.str "done")] "or"
        [.condition ⟨"status", "is", .str "done"⟩,
         .condition ⟨"status", "is", .str "todo"⟩] = .ok true ∧
    filterTasks ⟨"or", [.condition ⟨"status", "is", .str "done"⟩,
         .condition ⟨"status", "is", .str "todo"⟩], none⟩
        [[("status", JSValue.str "done")], [("status", JSValue.str "open")]] =
      .ok [[("status", JSValue.str "done")]] := by
  have h := C3_group_evaluation_and_filter
    [("status", JSValue.str "done")] "or"
    [.condition ⟨"status", "is", .str "done"⟩,
     .condition ⟨"status", "is", .str "todo"⟩]
    ⟨"or", [.condition ⟨"status", "is", .str "done"⟩,
      .condition ⟨"status", "is", .str "todo"⟩], none⟩
    [[("status", JSValue.str "done")], [("status", JSValue.str "open")]]
  constructor
  · refine ((h.2.1 ?_).2.1 (by simp)).mpr ?_
    · intro a ha
      rcases (by simpa using ha :
          a = Ast.condition ⟨"status", "is", CondValue.str "done"⟩ ∨
          a = Ast.condition ⟨"status", "is", CondValue.str "todo"⟩) with rfl | rfl
      · exact ⟨true, rfl⟩
      · exact ⟨false, rfl⟩
    · exact ⟨.condition ⟨"status", "is", .str "done"⟩, by simp, rfl⟩
  · refine (h.2.2.1 ?_).trans rfl
    intro t ht
    rcases (by simpa using ht :
        t = [("status", JSValue.str "done")] ∨
        t = [("status", JSValue.str "open")]) with rfl | rfl
    · exact ⟨true, rfl⟩
    · exact ⟨false, rfl⟩

/-- Exact result of the four string operators on the data model's value
shapes (helper shared by several theorems below). -/
theorem stringOpSemantics (t : TaskRec) (p val : String) :
    (taskGet t p = .null →
      evaluateCondition t ⟨p, "is", .str val⟩ = .ok false ∧
      evaluateCondition t ⟨p, "is-not", .str val⟩ = .ok true ∧
      evaluateCondition t ⟨p, "contains", .str val⟩ = .ok false ∧
      evaluateCondition t ⟨p, "does-not-contain", .str val⟩ = .ok true) ∧
    (∀ v : String, taskGet t p = .str v →
      evaluateCondition t ⟨p, "is", .str val⟩ =
        .ok (decide (v ≠ "") && decide (strLower v = strLower val)) ∧
      evaluateCondition t ⟨p, "is-not", .str val⟩ =
        .ok (!(decide (v ≠ "") && decide (strLower v = strLower val))) ∧
      evaluateCondition t ⟨p, "contains", .str val⟩ =
        .ok (decide (v ≠ "") && strIncludes (strLower v) (strLower val)) ∧
      evaluateCondition t ⟨p, "does-not-contain", .str val⟩ =
        .ok (!(decide (v ≠ "") && strIncludes (strLower v) (strLower val)))) ∧
    (∀ xs : List String, taskGet t p = .arr (xs.map .str) →
      evaluateCondition t ⟨p, "is", .str val⟩ =
        .ok (xs.any fun x => decide (strLower x = strLower val)) ∧
      evaluateCondition t ⟨p, "is-not", .str val⟩ =
        .ok (!(xs.any fun x => decide (strLower x = strLower val))) ∧
      evaluateCondition t ⟨p, "contains", .str val⟩ =
        .ok (xs.any fun x => strIncludes (strLower x) (strLower val)) ∧
      evaluateCondition t ⟨p, "does-not-contain", .str val⟩ =
        .ok (!(xs.any fun x => strIncludes (strLower x) (strLower val)))) := by
  refine ⟨?_, ?_, ?_⟩
  · intro hv
    refine ⟨?_, ?_, ?_, ?_⟩ <;> simp [evaluateCondition, hv, truthy]
  · intro v hv
    by_cases h0 : v = ""
    · subst h0
      refine ⟨?_, ?_, ?_, ?_⟩ <;> simp [evaluateCondition, hv, truthy]
    · by_cases h1 : strLower v = strLower val <;>
        by_cases h2 : strIncludes (strLower v) (strLower val) <;>
        refine ⟨?_, ?_, ?_, ?_⟩ <;>
        simp [evaluateCondition, hv, truthy, h0, h1, h2, jsToLower,
          CondValue.toJS]
  · intro xs hv
    refine ⟨?_, ?_, ?_, ?_⟩ <;>
      simp [evaluateCondition, hv, CondValue.toJS, someLowerEq_str,
        someLowerIncludes_str]

/-- C4: semantics of `is` / `contains` and their negations on the data
model's value shapes — array values test case-insensitive membership
(resp. substring containment) over the elements, scalar string values
require presence (truthiness) plus case-insensitive equality
(resp. containment), and `is-not` / `does-not-contain` return exactly the
negated boolean in every case. -/
theorem C4_string_operator_semantics (t : TaskRec) (p val : String) :
    (taskGet t p = .null →
      evaluateCondition t ⟨p, "is", .str val⟩ = .ok false ∧
      evaluateCondition t ⟨p, "is-not", .str val⟩ = .ok true ∧
      evaluateCondition t ⟨p, "contains", .str val⟩ = .ok false ∧
      evaluateCondition t ⟨p, "does-not-contain", .str val⟩ = .ok true) ∧
    (∀ v : String, taskGet t p = .str v →
      evaluateCondition t ⟨p, "is", .str val⟩ =
        .ok (decide (v ≠ "") && decide (strLower v = strLower val)) ∧
      evaluateCondition t ⟨p, "is-not", .str val⟩ =
        .ok (!(decide (v ≠ "") && decide (strLower v = strLower val))) ∧
      evaluateCondition t ⟨p, "contains", .str val⟩ =
        .ok (decide (v ≠ "") && strIncludes (strLower v) (strLower val)) ∧
      evaluateCondition t ⟨p, "does-not-contain", .str val⟩ =
        .ok (!(decide (v ≠ "") && strIncludes (strLower v) (strLower val)))) ∧
    (∀ xs : List String, taskGet t p = .arr (xs.map .str) →
      evaluateCondition t ⟨p, "is", .str val⟩ =
        .ok (xs.any fun x => decide (strLower x = strLower val)) ∧
      evaluateCondition t ⟨p, "is-not", .str val⟩ =
        .ok (!(xs.any fun x => decide (strLower x = strLower val))) ∧
      evaluateCondition t ⟨p, "contains", .str val⟩ =
        .ok (xs.any fun x => strIncludes (strLower x) (strLower val)) ∧
      evaluateCondition t ⟨p, "does-not-contain", .str val⟩ =
        .ok (!(xs.any fun x => strIncludes (strLower x) (strLower val)))) :=
  stringOpSemantics t p val

/-- Witness for C4 on a concrete record with a tags array and a scalar
status. -/
theorem C4_witness :
    evaluateCondition [("tags", JSValue.arr [.str "Urgent", .str "Work"])]
      ⟨"tags", "contains", .str "urg"⟩ = .ok true ∧
    evaluateCondition [("status", JSValue.str "Done")]
      ⟨"status", "is-not", .str "done"⟩ = .ok false := by
  constructor
  · have h := (C4_string_operator_semantics
      [("tags", JSValue.arr [.str "Urgent", .str "Work"])] "tags" "urg").2.2
      ["Urgent", "Work"] rfl
    exact h.2.2.1.trans (by rfl)
  · have h := (C4_string_operator_semantics
      [("status", JSValue.str "Done")] "status" "done").2.1 "Done" rfl
    exact h.2.1.trans (by rfl)

/-- C5 refutation: a tree produced by a successful parse can raise a
`TypeError` when a referenced property holds a truthy non-string (here a
boolean), because the `is` branch calls `taskValue.toLowerCase()`. -/
theorem C5_counterexample :
    parse "status:todo" =
      .ok ⟨"and", [.condition ⟨"status", "is", .str "todo"⟩], none⟩ ∧
    evaluateGroup [("status", JSValue.bool true)] "and"
        [.condition ⟨"status", "is", .str "todo"⟩] =
      .error "TypeError: toLowerCase is not a function" ∧
    queryTasks ⟨"and", [.condition ⟨"status", "is", .str "todo"⟩], none⟩
        [[("status", JSValue.bool true)]] =
      .error "TypeError: toLowerCase is not a function" :=
  ⟨rfl, rfl, rfl⟩

/-- Totality of a group evaluation given totality of its children. -/
theorem evalGroup_total (t : TaskRec) (conj : String) (ch : List Ast)
    (h : ∀ a ∈ ch, ∃ b, evaluateNode t a = .ok b) :
    ∃ b, evaluateGroup t conj ch = .ok b := by
  obtain ⟨bs, hbs, _⟩ := evalSome_spec t ch h
  obtain ⟨be, hbe, _⟩ := evalEvery_spec t ch h
  cases ch with
  | nil => exact ⟨true, rfl⟩
  | cons x xs =>
      by_cases hc : conj = "or"
      · exact ⟨bs, by simp [evaluateGroup, hc, hbs]⟩
      · exact ⟨be, by simp [evaluateGroup, hc, hbe]⟩

/-- A condition whose string-operator values are strings never throws on a
record whose values fit the data model. -/
theorem evalCond_total (t : TaskRec) (p op : String) (v : CondValue)
    (hc : op ∈ stringOps → ∃ s, v = CondValue.str s)
    (ht : goodVal (taskGet t p)) :
    ∃ b, evaluateCondition t ⟨p, op, v⟩ = .ok b := by
  by_cases h1 : op = "is"
  · subst h1
    obtain ⟨s, rfl⟩ := hc (by simp [stringOps])
    rcases ht with hnull | ⟨w, hw⟩ | ⟨xs, hxs⟩
    · exact ⟨_, ((stringOpSemantics t p s).1 hnull).1⟩
    · exact ⟨_, ((stringOpSemantics t p s).2.1 w hw).1⟩
    · exact ⟨_, ((stringOpSemantics t p s).2.2 xs hxs).1⟩
  by_cases h2 : op = "is-not"
  · subst h2
    obtain ⟨s, rfl⟩ := hc (by simp [stringOps])
    rcases ht with hnull | ⟨w, hw⟩ | ⟨xs, hxs⟩
    · exact ⟨_, ((stringOpSemantics t p s).1 hnull).2.1⟩
    · exact ⟨_, ((stringOpSemantics t p s).2.1 w hw).2.1⟩
    · exact ⟨_, ((stringOpSemantics t p s).2.2 xs hxs).2.1⟩
  by_cases h3 : op = "contains"
  · subst h3
    obtain ⟨s, rfl⟩ := hc (by simp [stringOps])
    rcases ht with hnull | ⟨w, hw⟩ | ⟨xs, hxs⟩
    · exact ⟨_, ((stringOpSemantics t p s).1 hnull).2.2.1⟩
    · exact ⟨_, ((stringOpSemantics t p s).2.1 w hw).2.2.1⟩
    · exact ⟨_, ((stringOpSemantics t p s).2.2 xs hxs).2.2.1⟩
  by_cases h4 : op = "does-not-contain"
  · subst h4
    obtain ⟨s, rfl⟩ := hc (by simp [stringOps])
    rcases ht with hnull | ⟨w, hw⟩ | ⟨xs, hxs⟩
    · exact ⟨_, ((stringOpSemantics t p s).1 hnull).2.2.2⟩
    · exact ⟨_, ((stringOpSemantics t p s).2.1 w hw).2.2.2⟩
    · exact ⟨_, ((stringOpSemantics t p s).2.2 xs hxs).2.2.2⟩
  · simp only [evaluateCondition, if_neg h1, if_neg h2, if_neg h3, if_neg h4]
    repeat' split
    all_goals exact ⟨_, rfl⟩

/-- Node-level totality on data-model-shaped records (`GoodConds`
induction). -/
theorem evalNode_total (t : TaskRec) (ht : goodTask t) :
    ∀ a : Ast, GoodConds a → ∃ b, evaluateNode t a = .ok b := by
  intro a h
  induction h with
  | condition c hc => exact evalCond_total t c.property c.operator c.value hc (ht c.property)
  | group conj ch hch ih => exact evalGroup_total t conj ch ih

/-- A condition evaluated against a record where the referenced property is
absent never throws, whatever the operator and value. -/
theorem evalCond_null (t : TaskRec) (p op : String) (v : CondValue)
    (hnull : taskGet t p = .null) :
    ∃ b, evaluateCondition t ⟨p, op, v⟩ = .ok b := by
  by_cases h01 : op = "is"
  · exact ⟨false, by simp [evaluateCondition, hnull, truthy, h01]⟩
  by_cases h02 : op = "is-not"
  · exact ⟨true, by simp [evaluateCondition, hnull, truthy, h01, h02]⟩
  by_cases h03 : op = "contains"
  · exact ⟨false, by simp [evaluateCondition, hnull, truthy, h01, h02, h03]⟩
  by_cases h04 : op = "does-not-contain"
  · exact ⟨true, by simp [evaluateCondition, hnull, truthy, h01, h02, h03, h04]⟩
  by_cases h21 : op ∈ recognizedOps
  · simp only [recognizedOps, List.mem_cons, List.not_mem_nil, or_false] at h21
    rcases h21 with rfl | rfl | rfl | rfl | rfl | rfl | rfl | rfl | rfl | rfl |
      rfl | rfl | rfl | rfl | rfl | rfl | rfl | rfl | rfl | rfl <;>
      simp_all [evaluateCondition, hnull, truthy]
  · exact ⟨true, evaluateCondition_default t p op v h21⟩

/-- On a record with no (relevant) properties at all, every tree evaluates
cleanly. -/
theorem evalNode_null_total (t : TaskRec) (ht : ∀ p, taskGet t p = .null) :
    ∀ a : Ast, ∃ b, evaluateNode t a = .ok b := by
  have key : ∀ (n : Nat) (a : Ast), sizeOf a ≤ n → ∃ b, evaluateNode t a = .ok b := by
    intro n
    induction n with
    | zero =>
        intro a ha
        exfalso
        cases a <;> simp at ha
    | succ n ih =>
        intro a ha
        cases a with
        | condition c => exact evalCond_null t c.property c.operator c.value (ht _)
        | group conj ch =>
            refine evalGroup_total t conj ch ?_
            intro x hx
            refine ih x ?_
            have h1 := List.sizeOf_lt_of_mem hx
            have h2 : sizeOf (Ast.group conj ch) = 1 + sizeOf conj + sizeOf ch := by
              simp
            omega
  exact fun a => key (sizeOf a) a le_rfl

/-- C5 (amended): evaluation of a successfully parsed tree completes
without raising provided the values consulted by the string operators are
strings — concretely, every condition using `is`/`is-not`/`contains`/
`does-not-contain` carries a string value (`GoodConds`) and the record's
property values are absent, strings, or string arrays (`goodTask`); in
particular a record with no properties at all evaluates cleanly against
every parsed tree, a missing property reading as absent/falsy rather than
failing. (The unamended claim is refuted by `C5_counterexample`: truthy
non-string data reaching `toLowerCase` raises a `TypeError`.) -/
theorem C5_amended_evaluation_totality (expr : String) (q : FilterQuery)
    (hq : parse expr = .ok q) (task : TaskRec) :
    (goodTask task → (∀ a ∈ q.children, GoodConds a) →
      ∃ b, evaluateGroup task q.conjunction q.children = .ok b) ∧
    ((∀ p, taskGet task p = .null) →
      ∃ b, evaluateGroup task q.conjunction q.children = .ok b) := by
  constructor
  · intro ht hgc
    exact evalGroup_total task _ _ (fun a ha => evalNode_total task ht a (hgc a ha))
  · intro hnull
    exact evalGroup_total task _ _ (fun a _ => evalNode_null_total task hnull a)

/-- Witness for the amended C5 on the parse of `status:todo` and a
string-valued record. -/
theorem C5_amended_witness :
    ∃ b, evaluateGroup [("status", JSValue.str "done")] "and"
      [.condition ⟨"status", "is", .str "todo"⟩] = .ok b := by
  refine (C5_amended_evaluation_totality "status:todo"
    ⟨"and", [.condition ⟨"status", "is", .str "todo"⟩], none⟩ rfl
    [("status", JSValue.str "done")]).1 ?_ ?_
  · intro p
    by_cases hp : "status" = p
    · subst hp
      exact Or.inr (Or.inl ⟨"done", rfl⟩)
    · have hbeq : (p == "status") = false :=
        beq_eq_false_iff_ne.mpr fun h => hp h.symm
      have hget : taskGet [("status", JSValue.str "done")] p = .null := by
        simp [taskGet, List.lookup, hbeq]
      rw [goodVal, hget]
      exact Or.inl rfl
  · intro a ha
    have : a = Ast.condition ⟨"status", "is", CondValue.str "todo"⟩ := by
      simpa using ha
    subst this
    exact GoodConds.condition _ (fun _ => ⟨"todo", rfl⟩)

/-- C10 (amended): after client-side filtering, `queryTasks` truncates the
result to the effective limit — `filterQuery.limit` when present and
nonzero, 200 when the field is absent (or 0, since `limit || 200` treats 0
as falsy) — while `total` still reports the pre-filter task count. -/
theorem C10_amended_limit_truncation (q : FilterQuery) (tasks : List TaskRec)
    (h : ∀ t ∈ tasks, ∃ b, evaluateGroup t q.conjunction q.children = .ok b) :
    ∃ res : QueryResult,
      queryTasks q tasks = .ok res ∧
      res.tasks = (tasks.filter fun t =>
        evaluateGroup t q.conjunction q.children = .ok true).take
          (effectiveLimit q.limit) ∧
      res.tasks.length ≤ effectiveLimit q.limit ∧
      (q.limit = none → effectiveLimit q.limit = 200) ∧
      res.total = tasks.length := by
  have hf := filterTasks_ok q tasks h
  by_cases hlen : (tasks.filter fun t =>
      evaluateGroup t q.conjunction q.children = .ok true).length >
        effectiveLimit q.limit
  · refine ⟨⟨(tasks.filter fun t =>
        evaluateGroup t q.conjunction q.children = .ok true).take
          (effectiveLimit q.limit), tasks.length,
        ((tasks.filter fun t =>
          evaluateGroup t q.conjunction q.children = .ok true).take
            (effectiveLimit q.limit)).length⟩, ?_, rfl, ?_, ?_, rfl⟩
    · simp only [queryTasks, hf]
      simp [hlen]
    · simp only [List.length_take]
      omega
    · intro hnone
      rw [hnone]
      rfl
  · refine ⟨⟨tasks.filter fun t =>
        evaluateGroup t q.conjunction q.children = .ok true,
        tasks.length,
        (tasks.filter fun t =>
          evaluateGroup t q.conjunction q.children = .ok true).length⟩,
        ?_, ?_, ?_, ?_, rfl⟩
    · simp only [queryTasks, hf]
      simp [hlen]
    · exact (List.take_of_length_le (Nat.le_of_not_lt hlen)).symm
    · exact Nat.le_of_not_lt hlen
    · intro hnone
      rw [hnone]
      rfl

/-- Witness for the amended C10: an empty-children query with no limit
field over a single task. -/
theorem C10_amended_witness :
    ∃ res : QueryResult,
      queryTasks ⟨"and", [], none⟩ [[("a", JSValue.str "x")]] = .ok res ∧
      res.tasks = ([[("a", JSValue.str "x")]].filter fun t =>
        evaluateGroup t "and" [] = .ok true).take (effectiveLimit none) ∧
      res.tasks.length ≤ effectiveLimit none ∧
      ((none : Option Nat) = none → effectiveLimit none = 200) ∧
      res.total = [[("a", JSValue.str "x")]].length :=
  C10_amended_limit_truncation ⟨"and", [], none⟩ [[("a", JSValue.str "x")]]
    (fun t _ => ⟨true, rfl⟩)

/-- C10 refutation: with a present-but-zero `limit`, `filterQuery.limit ||
200` falls back to 200, so the returned list is not truncated to the stated
limit (here: one task returned against a limit of 0). -/
theorem C10_counterexample :
    queryTasks ⟨"and", [], some 0⟩ [[]] =
      .ok ⟨[([] : TaskRec)], 1, 1⟩ ∧
    ¬((1 : Nat) ≤ 0) :=
  ⟨rfl, by decide⟩

end TN
